import Mathlib

/-!
Shallow embedding of the graph / force-directed-layout module
(`Graph`, `GraphNode`, `GraphEdge`, `GraphLayout`, `GraphLayoutForceDirected`).

JavaScript `Map`s are modelled as insertion-ordered association lists keyed by
`String` (JS `Map.set` replaces in place or appends; iteration is insertion
order).  Node and edge objects are modelled as records; since node objects are
aliased by id throughout the source (node ids are unique per graph), object
references are represented by ids and the mutable node store is threaded
explicitly.  `Infinity`-or-natural traversal distances are `Option Nat` with
`none` standing for `Infinity`.
-/

attribute [local semireducible] Rat.add Rat.mul Rat.sub Rat.inv Rat.ofScientific

/-- Association-list lookup, mirroring JS `Map.get` (first match wins). -/
def alookup {β : Type} : List (String × β) → String → Option β
  | [], _ => none
  | kv :: rest, k => if kv.1 = k then some kv.2 else alookup rest k

/-- Association-list store, mirroring JS `Map.set`: replace the existing entry
in place, else append. -/
def mset {β : Type} : List (String × β) → String → β → List (String × β)
  | [], k, v => [(k, v)]
  | kv :: rest, k, v => if kv.1 = k then (k, v) :: rest else kv :: mset rest k v

/-- JS `Map.set` on a map whose values are irrelevant to any claim
(used for key-set views): append the key if unseen. -/
def ksert (l : List String) (k : String) : List String :=
  if k ∈ l then l else l ++ [k]

/-- `Map.set` keyed by a numeric index (the subgraph's `nodeMap`/`edgeIDMap`). -/
def nset {β : Type} : List (Nat × β) → Nat → β → List (Nat × β)
  | [], k, v => [(k, v)]
  | kv :: rest, k, v => if kv.1 = k then (k, v) :: rest else kv :: nset rest k v

/-- `GraphNode` (source lines 205-221).  `attrType` is `attributes.type`;
`directType` is the JS object's own `type` property, which the constructor
never assigns (the tag is stored only under `attributes`), hence `none` for
every constructible node. -/
structure GraphNode where
  id : String
  adj : List String
  distance : Option Nat
  degree : Nat
  attrType : Option String
  directType : Option String
deriving DecidableEq, Repr

/-- `GraphNode` constructor. -/
def GraphNode.make (id : String) (type : Option String) : GraphNode :=
  { id := id, adj := [], distance := none, degree := 0,
    attrType := type, directType := none }

/-- `GraphNode.addAdjacentNode` (lines 214-217): `Set.add` dedups while
preserving insertion order; `degree` increments unconditionally. -/
def GraphNode.addAdjacentNode (n : GraphNode) (other : String) : GraphNode :=
  { n with adj := if other ∈ n.adj then n.adj else n.adj ++ [other],
           degree := n.degree + 1 }

/-- `GraphEdge` (lines 223-231); endpoints are node references, kept as ids. -/
structure GraphEdge where
  id : String
  node0 : String
  node1 : String
  distance : Option Nat
  attrType : Option String
  strength : ℚ
deriving DecidableEq, Repr

/-- `GraphEdge` constructor. -/
def GraphEdge.make (id node0 node1 : String) (type : Option String) : GraphEdge :=
  { id := id, node0 := node0, node1 := node1, distance := none,
    attrType := type, strength := 1 }

/-- `Graph` (lines 1-31).  Only the fields the claims touch are carried; the
layout driver (`setInterval`) and the layout reference are host-side state the
claims do not mention. -/
structure Graph where
  nodes : List (String × GraphNode)
  edges : List (String × GraphEdge)
  nodeIndexMap : List (String × Nat)
  nodeMap : List (Nat × String)
  edgeIndexMap : List (String × Nat)
  edgeIDMap : List (Nat × String)
  edgeNodeIndex : List Nat
  numberOfNodes : Nat
  numberOfEdges : Nat
  isSubGraph : Bool
  dataStructureChanged : Bool
deriving DecidableEq, Repr

/-- `new Graph({})`: the top-level constructor state. -/
def Graph.make : Graph :=
  { nodes := [], edges := [], nodeIndexMap := [], nodeMap := [],
    edgeIndexMap := [], edgeIDMap := [], edgeNodeIndex := [],
    numberOfNodes := 0, numberOfEdges := 0, isSubGraph := false,
    dataStructureChanged := false }

/-- `Graph.addNode` (lines 33-39). -/
def Graph.addNode (g : Graph) (node : GraphNode) : Graph :=
  if (alookup g.nodes node.id).isSome then g
  else { g with nodes := g.nodes ++ [(node.id, node)],
                numberOfNodes := g.numberOfNodes + 1,
                dataStructureChanged := true }

/-- `Graph.addEdge` (lines 41-47). -/
def Graph.addEdge (g : Graph) (edge : GraphEdge) : Graph :=
  if (alookup g.edges edge.id).isSome then g
  else { g with edges := g.edges ++ [(edge.id, edge)],
                numberOfEdges := g.numberOfEdges + 1,
                dataStructureChanged := true }

/-- `Graph._resetDistance` (lines 49-56).  The source iterates with
`for (const node in this.nodes.values())`: `for...in` enumerates the property
keys of the iterator object returned by `values()`, of which there are none,
so neither loop body ever executes and every distance is left unchanged.  The
same holds for the edge loop. -/
def Graph.resetDistanceRun (g : Graph) : Graph := g

/-- The implicit-seed scan of `generateSubGraph` (lines 91-102): running
maximum with strict `>` (first-seen ties win).  The comparison reads
`node.degree`, but the running maximum is updated from `node.adjacentSet.size`
(`adj.length`), exactly as in the source. -/
def selectDefaultSeed (nodes : List (String × GraphNode)) : Option String :=
  (nodes.foldl
    (fun (st : Nat × Option String) kv =>
      if st.1 < kv.2.degree ∧ kv.2.attrType = some "driver"
      then (kv.2.adj.length, some kv.1)
      else st)
    (0, none)).2

/-- Edge-id composition used by `_getEdgeIDFromNodes`. -/
def edgeKey (a b : String) : String := a ++ "_" ++ b

/-- `Graph._getEdgeIDFromNodes` (lines 189-197). -/
def getEdgeIDFromNodes (edges : List (String × GraphEdge)) (a b : String) :
    Option GraphEdge :=
  match alookup edges (edgeKey a b) with
  | some e => some e
  | none => alookup edges (edgeKey b a)

/-- The child `Graph` built by `generateSubGraph`.  Node and edge values are
shared references into the parent; a node is stored at acceptance time, after
its distance was last written, so the stored value is the post-call value. -/
structure SubGraph where
  nodes : List (String × GraphNode)
  edges : List (String × GraphEdge)
  nodeIndexMap : List (String × Nat)
  nodeMap : List (Nat × String)
  edgeIndexMap : List (String × Nat)
  edgeIDMap : List (Nat × String)
  edgeNodeIndex : List Nat
  numberOfNodes : Nat
  numberOfEdges : Nat
deriving DecidableEq, Repr

/-- The empty child graph (`new Graph({parentGraph: this})`). -/
def SubGraph.empty : SubGraph :=
  { nodes := [], edges := [], nodeIndexMap := [], nodeMap := [],
    edgeIndexMap := [], edgeIDMap := [], edgeNodeIndex := [],
    numberOfNodes := 0, numberOfEdges := 0 }

/-- Set a node's `distance` in the parent store (mutation of the shared
object, keyed by id). -/
def setDistance : List (String × GraphNode) → String → Option Nat →
    List (String × GraphNode)
  | [], _, _ => []
  | kv :: rest, k, d =>
    if kv.1 = k then (kv.1, { kv.2 with distance := d }) :: rest
    else kv :: setDistance rest k d

/-- BFS loop state: the parent node store (distances mutate), the FIFO queue
of node references (ids), the child graph being built, and the `nodeCount` /
`edgeCount` locals. -/
structure BfsState where
  nodes : List (String × GraphNode)
  queue : List String
  sub : SubGraph
  nodeCount : Nat
  edgeCount : Nat
deriving DecidableEq, Repr

/-- Lines 126-129 for one `item`: if `item.distance === Infinity`, label it
`current.distance + 1` and push it.  The `none` lookup case is unreachable for
well-formed graphs (every adjacency reference is an entry of the node map). -/
def touchItem (st : BfsState) (ud : Nat) (w : String) : BfsState :=
  match alookup st.nodes w with
  | none => st
  | some nw =>
    match nw.distance with
    | none => { st with nodes := setDistance st.nodes w (some (ud + 1)),
                        queue := st.queue ++ [w] }
    | some _ => st

/-- Lines 130-138 for one `item`: look the connecting edge up and insert it
into the child maps if its id is unseen. -/
def recordEdge (edges : List (String × GraphEdge)) (uid w : String)
    (st : BfsState) : BfsState :=
  match getEdgeIDFromNodes edges uid w with
  | none => st
  | some e =>
    if (alookup st.sub.edgeIndexMap e.id).isSome then st
    else
      { st with
        sub := { st.sub with
          edgeIndexMap := mset st.sub.edgeIndexMap e.id st.edgeCount,
          edgeIDMap := nset st.sub.edgeIDMap st.edgeCount e.id,
          edges := mset st.sub.edges e.id e },
        edgeCount := st.edgeCount + 1 }

/-- Body of `for (const item of current.adjacentSet)` (lines 125-139) for one
`item`. -/
def processItem (edges : List (String × GraphEdge)) (uid : String) (ud : Nat)
    (st : BfsState) (w : String) : BfsState :=
  recordEdge edges uid w (touchItem st ud w)

/-- Lines 120-139: accept the dequeued node `uid` (value `nu`, distance `ud`)
into the child graph, then walk its adjacency set. -/
def processNode (edges : List (String × GraphEdge)) (st : BfsState)
    (uid : String) (nu : GraphNode) (ud : Nat) : BfsState :=
  let st1 :=
    { st with
      sub := { st.sub with
        nodeIndexMap := mset st.sub.nodeIndexMap uid st.nodeCount,
        nodeMap := nset st.sub.nodeMap st.nodeCount uid,
        nodes := mset st.sub.nodes uid nu },
      nodeCount := st.nodeCount + 1 }
  nu.adj.foldl (processItem edges uid ud) st1

/-- The `while (queue.length !== 0)` loop (lines 115-140).  Fuel makes the
recursion structural; `bfsLoop_fuel` below shows the supplied fuel is never
exhausted (at fuel `0` the invariant forces an empty queue, so returning the
state unchanged agrees with the loop).  A dequeued node whose `distance`
exceeds `numHops` breaks out of the loop; `Infinity > numHops` also breaks.
The lookup-failure branch is unreachable: queued ids are node-map keys. -/
def bfsLoop (edges : List (String × GraphEdge)) (k : Nat) :
    Nat → BfsState → BfsState
  | 0, st => st
  | fuel + 1, st =>
    match st.queue with
    | [] => st
    | u :: rest =>
      match alookup st.nodes u with
      | none => st
      | some nu =>
        match nu.distance with
        | none => st
        | some d =>
          if k < d then st
          else
            bfsLoop edges k fuel
              (processNode edges { st with queue := rest } u nu d)

/-- Lines 145-152: build the flat endpoint-index buffer from the child's own
index map, skipping edges with an unindexed endpoint. -/
def buildEdgeNodeIndex (sub : SubGraph) : List Nat :=
  sub.edges.foldl
    (fun buf kv =>
      match alookup sub.nodeIndexMap kv.2.node0,
            alookup sub.nodeIndexMap kv.2.node1 with
      | some i0, some i1 => buf ++ [i0, i1]
      | _, _ => buf)
    []

/-- The observable failure of `generateSubGraph`: with no seed available the
source evaluates `this.nodes.get(undefined)` and then assigns
`root.distance = 0`, an unconditional TypeError (no error class of its own
exists anywhere in the module). -/
inductive JsError
  | typeError (msg : String)
deriving DecidableEq, Repr

/-- Result of a `generateSubGraph` call: the parent node store after the
call's distance mutations, and the child graph. -/
structure SubGraphResult where
  parentNodes : List (String × GraphNode)
  sub : SubGraph
deriving DecidableEq, Repr

/-- `Graph.generateSubGraph` (lines 89-162).  `startNodeID` is the optional
argument; `numHops` defaults to 3 at the call sites.  The fuel
`g.nodes.length + 1` is enough for the loop to reach its own exit (proved
below). -/
def generateSubGraph (g : Graph) (startNodeID : Option String) (numHops : Nat) :
    Except JsError SubGraphResult :=
  let sid := match startNodeID with
    | some s => some s
    | none => selectDefaultSeed g.nodes
  let g1 := g.resetDistanceRun
  match sid with
  | none => Except.error (JsError.typeError "cannot read or set distance of undefined")
  | some s =>
    match alookup g1.nodes s with
    | none => Except.error (JsError.typeError "cannot read or set distance of undefined")
    | some _ =>
      let nodes1 := setDistance g1.nodes s (some 0)
      let st0 : BfsState :=
        { nodes := nodes1, queue := [s], sub := SubGraph.empty,
          nodeCount := 0, edgeCount := 0 }
      let stF := bfsLoop g1.edges numHops (nodes1.length + 1) st0
      Except.ok
        { parentNodes := stF.nodes,
          sub := { stF.sub with
            edgeNodeIndex := buildEdgeNodeIndex stF.sub,
            numberOfNodes := stF.nodeCount,
            numberOfEdges := stF.edgeCount } }

/-!
## Force-directed layout

The numeric kernel is written once, generically over a structure of numeric
operations, and instantiated twice: with exact rational arithmetic (`ratM`,
the "exact arithmetic" reading the spec's integration claims pose), and with a
JS-number model (`jsM`) carrying `NaN` and the infinities, which is where the
division-by-zero behaviour of `_xtod` is visible.  `Math.sqrt` has no exact
rational counterpart, so it is a parameter of `ratM`; `jsM` uses a rational
square root that agrees with the real one at perfect squares (every point
where a theorem of this file evaluates it). -/

structure NumModel (α : Type) where
  ofRat : ℚ → α
  add : α → α → α
  sub : α → α → α
  mul : α → α → α
  div : α → α → α
  neg : α → α
  sqrtFn : α → α
  ltb : α → α → Bool

/-- Exact-arithmetic instantiation; `sq` stands for `Math.sqrt`.  Division by
zero is the Lean convention `q / 0 = 0`; the JS behaviour (`NaN`/`Infinity`)
lives in `jsM` below. -/
def ratM (sq : ℚ → ℚ) : NumModel ℚ :=
  { ofRat := id, add := (· + ·), sub := (· - ·), mul := (· * ·),
    div := (· / ·), neg := (- ·), sqrtFn := sq,
    ltb := fun a b => decide (a < b) }

/-- JS double, restricted to the values arising here: a finite (rational)
value, `NaN`, or a signed infinity.  `-0` is identified with `0`; no evaluated
code path in this file distinguishes them. -/
inductive JsNum
  | fin (q : ℚ)
  | nan
  | inf
  | ninf
deriving DecidableEq, Repr

def JsNum.neg : JsNum → JsNum
  | fin q => fin (-q)
  | nan => nan
  | inf => ninf
  | ninf => inf

def JsNum.add : JsNum → JsNum → JsNum
  | nan, _ => nan
  | _, nan => nan
  | inf, ninf => nan
  | ninf, inf => nan
  | inf, _ => inf
  | _, inf => inf
  | ninf, _ => ninf
  | _, ninf => ninf
  | fin a, fin b => fin (a + b)

def JsNum.sub (a b : JsNum) : JsNum := a.add b.neg

def JsNum.mul : JsNum → JsNum → JsNum
  | nan, _ => nan
  | _, nan => nan
  | inf, inf => inf
  | inf, ninf => ninf
  | ninf, inf => ninf
  | ninf, ninf => inf
  | inf, fin q => if q = 0 then nan else if 0 < q then inf else ninf
  | fin q, inf => if q = 0 then nan else if 0 < q then inf else ninf
  | ninf, fin q => if q = 0 then nan else if 0 < q then ninf else inf
  | fin q, ninf => if q = 0 then nan else if 0 < q then ninf else inf
  | fin a, fin b => fin (a * b)

def JsNum.div : JsNum → JsNum → JsNum
  | nan, _ => nan
  | _, nan => nan
  | inf, inf => nan
  | inf, ninf => nan
  | ninf, inf => nan
  | ninf, ninf => nan
  | fin _, inf => fin 0
  | fin _, ninf => fin 0
  | inf, fin q => if 0 ≤ q then inf else ninf
  | ninf, fin q => if 0 ≤ q then ninf else inf
  | fin a, fin b =>
    if b = 0 then (if a = 0 then nan else if 0 < a then inf else ninf)
    else fin (a / b)

def JsNum.ltb : JsNum → JsNum → Bool
  | nan, _ => false
  | _, nan => false
  | fin a, fin b => decide (a < b)
  | fin _, inf => true
  | inf, fin _ => false
  | inf, inf => false
  | ninf, ninf => false
  | ninf, _ => true
  | _, ninf => false

/-- Floor square root on naturals (exact at perfect squares). -/
def natFloorSqrt (n : Nat) : Nat :=
  ((List.range (n + 1)).filter (fun m => m * m ≤ n)).length - 1

/-- Rational stand-in for the real square root: exact at rationals that are
squares of rationals (in this file it is only ever evaluated at such points,
in fact only at `0`). -/
def ratSqrt (q : ℚ) : ℚ :=
  (natFloorSqrt q.num.toNat : ℚ) / (natFloorSqrt q.den : ℚ)

def JsNum.sqrtFn : JsNum → JsNum
  | nan => nan
  | inf => inf
  | ninf => nan
  | fin q => if q < 0 then nan else fin (ratSqrt q)

/-- The JS-number instantiation. -/
def jsM : NumModel JsNum :=
  { ofRat := JsNum.fin, add := JsNum.add, sub := JsNum.sub, mul := JsNum.mul,
    div := JsNum.div, neg := JsNum.neg, sqrtFn := JsNum.sqrtFn,
    ltb := JsNum.ltb }

/-- `GraphLayoutForceDirected` state (lines 257-305).  Dense buffers are total
functions from indices; slots outside the written ranges keep their previous
value, matching typed-array semantics (out-of-range writes are dropped, and no
in-range read below ever observes an unwritten slot in a way a claim
mentions).  `numberOfEdgesField` is the layout's own `this.numberOfEdges`,
which no line of the constructor or of `step` ever assigns, hence `none`
(undefined).  The node color buffer is omitted: no claim reads it. -/
structure LayoutState (α : Type) where
  numberOfNodes : Nat
  dof : Nat
  dt : α
  currentStep : Nat
  position : Nat → Nat → α
  velocity : Nat → α
  acceleration : Nat → α
  distanceBuf : Nat → α
  directionBuf : Nat → α
  ymean : Nat → α
  mass : Nat → α
  size : Nat → α
  edgeNodeIndex : List Nat
  edgePosition : List (Option α)
  numberOfEdgesField : Option Nat

/-- constants of the constructor (lines 269-277) -/
def kaC : ℚ := 1/1000

def kr2C : ℚ := 1/1000

def ksC : ℚ := 1/1000

def ks2C : ℚ := 1/100

def dampingC : ℚ := 95/100

def balanceLengthC : ℚ := 4

/-- `_L2` (lines 352-362) on two rows of length `dof`. -/
def l2 {α : Type} (M : NumModel α) (dof : Nat) (a b : Nat → α) : α :=
  (List.range dof).foldl
    (fun d i => M.add d (M.mul (M.sub (a i) (b i)) (M.sub (a i) (b i))))
    (M.ofRat 0)

/-- `_xtod` (lines 364-377).  The loop writes each `dist` slot `i*N + j`
(`i ≠ j`, both `< N`) and each `direction` slot `i*N*dof + j*dof + k`
(`k < dof`) exactly once, so the updated buffers are given in closed form: the
value computed for the ordered pair `(min i j, max i j)` — the loop's `(i, j)`
with `i < j` — is stored directly in the lower slot and negated in the
mirrored slot.  There is no guard for a zero distance: the division happens
unconditionally. -/
def xtod {α : Type} (M : NumModel α) (s : LayoutState α) : LayoutState α :=
  let N := s.numberOfNodes
  let dof := s.dof
  let dval := fun i j => M.sqrtFn (l2 M dof (s.position i) (s.position j))
  { s with
    distanceBuf := fun p =>
      let i := p / N
      let j := p % N
      if i < N ∧ j < N ∧ i ≠ j then dval (min i j) (max i j)
      else s.distanceBuf p,
    directionBuf := fun p =>
      let i := p / (N * dof)
      let r := p % (N * dof)
      let j := r / dof
      let k := r % dof
      if i < N ∧ j < N ∧ i ≠ j then
        let lo := min i j
        let hi := max i j
        let base := M.div (M.sub (s.position lo k) (s.position hi k)) (dval lo hi)
        if i < j then base else M.neg base
      else s.directionBuf p }

/-- The repulsion / boundary force of `_processNodeInteractions`
(lines 406-416) for the ordered pair `(i, j)`. -/
def nodeForce {α : Type} (M : NumModel α) (s : LayoutState α) (i j : Nat) : α :=
  let N := s.numberOfNodes
  let dist := s.distanceBuf (i * N + j)
  let dist2 := M.mul (s.distanceBuf (i * N + j)) (s.distanceBuf (i * N + j))
  let distBoundary := M.sub dist (M.add (s.size i) (s.size j))
  if M.ltb (M.ofRat 0) distBoundary
  then M.mul (M.div (M.ofRat kr2C) dist2) (s.mass j)
  else M.mul (M.neg (M.ofRat ks2C)) distBoundary

/-- The per-`i` accumulator `gsum` of `_processNodeInteractions`
(lines 397-421), component `d` (`d < dof`): the `j` loop adds
`F·direction[i,j,d]` and, into component 2 only, the extra
`-ka·direction[i,j,2]` gravity term.  (When `dof = 2` the source writes that
term out of range of the `Float64Array`, where it is dropped; the model only
ever reads components `d < dof`, so the two agree.) -/
def gsum {α : Type} (M : NumModel α) (s : LayoutState α) (i d : Nat) : α :=
  let N := s.numberOfNodes
  let dof := s.dof
  (List.range N).foldl
    (fun acc j =>
      if j = i then acc
      else
        let t := M.add acc (M.mul (nodeForce M s i j)
          (s.directionBuf (i * N * dof + j * dof + d)))
        if d = 2 then
          M.add t (M.mul (M.neg (M.ofRat kaC))
            (s.directionBuf (i * N * dof + j * dof + 2)))
        else t)
    (M.ofRat 0)

/-- `_processNodeInteractions` (lines 394-427): recompute the pairwise
buffers, then overwrite `acceleration[i*dof + d]` with `gsum i d` for every
`i < N`, `d < dof`.  The source's `gsum` aliases `this.ymean` as scratch; its
value is dead (unread) until `step` zeroes it, so `ymean` is left unchanged
here. -/
def processNodeInteractions {α : Type} (M : NumModel α) (s : LayoutState α) :
    LayoutState α :=
  let s1 := xtod M s
  { s1 with
    acceleration := fun p =>
      let i := p / s1.dof
      let d := p % s1.dof
      if i < s1.numberOfNodes then gsum M s1 i d
      else s1.acceleration p }

/-- pointwise update of a buffer -/
def upd {α : Type} (f : Nat → α) (i : Nat) (v : α) : Nat → α :=
  fun j => if j = i then v else f j

/-- `_processEdgeInteractions` (lines 429-445): for each endpoint pair of the
graph's flat `edgeNodeIndex` buffer, add the spring force to both endpoints'
acceleration. -/
def processEdgeInteractions {α : Type} (M : NumModel α) (s : LayoutState α) :
    LayoutState α :=
  let N := s.numberOfNodes
  let dof := s.dof
  { s with
    acceleration :=
      (List.range (s.edgeNodeIndex.length / 2)).foldl
        (fun a i =>
          let n0 := s.edgeNodeIndex.getD (i * 2) 0
          let n1 := s.edgeNodeIndex.getD (i * 2 + 1) 0
          let dist := s.distanceBuf (n0 * N + n1)
          let F0 := M.mul (M.mul (M.sub (M.ofRat balanceLengthC) dist)
            (M.ofRat ksC)) (s.mass n1)
          let F1 := M.mul (M.mul (M.sub (M.ofRat balanceLengthC) dist)
            (M.ofRat ksC)) (s.mass n0)
          (List.range dof).foldl
            (fun a d =>
              let a' := upd a (n0 * dof + d) (M.add (a (n0 * dof + d))
                (M.mul F0 (s.directionBuf (n0 * N * dof + n1 * dof + d))))
              upd a' (n1 * dof + d) (M.add (a' (n1 * dof + d))
                (M.mul F1 (s.directionBuf (n1 * N * dof + n0 * dof + d)))))
            a)
        s.acceleration }

/-- `_calculateAcceleration` (lines 381-392): node and edge interactions,
then `velocity[i*dof+d] = (velocity + acceleration·dt) · damping` for every
in-range slot (`p < N·dof` exactly when `p = i·dof + d` with `i < N`,
`d < dof`). -/
def calculateAcceleration {α : Type} (M : NumModel α) (s : LayoutState α) :
    LayoutState α :=
  let s2 := processEdgeInteractions M (processNodeInteractions M s)
  { s2 with
    velocity := fun p =>
      if p < s2.numberOfNodes * s2.dof then
        M.mul (M.add (s2.velocity p) (M.mul (s2.acceleration p) s2.dt))
          (M.ofRat dampingC)
      else s2.velocity p }

/-- Lines 308-310: after 100 steps, grow `dt` by 0.5% per call while it is
below the ceiling 5e1. -/
def stepAnneal {α : Type} (M : NumModel α) (s : LayoutState α) :
    LayoutState α :=
  if 100 < s.currentStep ∧ M.ltb s.dt (M.ofRat 50)
  then { s with dt := M.mul s.dt (M.ofRat (1005/1000)) } else s

/-- Lines 314-333: `position[i][d] += velocity[i*dof+d]` with `ymean[d]`
accumulating the moved positions (each slot is written before it is read into
the sum, so the sum is over the moved values); then every in-range position
gets `ymean[d] / numberOfNodes` subtracted, and the step counter advances. -/
def stepIntegrate {α : Type} (M : NumModel α) (s1 : LayoutState α) :
    LayoutState α :=
  let N := s1.numberOfNodes
  let dof := s1.dof
  let moved := fun i d => M.add (s1.position i d) (s1.velocity (i * dof + d))
  let ym := fun d =>
    (List.range N).foldl (fun acc i => M.add acc (moved i d)) (M.ofRat 0)
  { s1 with
    position := fun i d =>
      if i < N ∧ d < dof then
        M.sub (moved i d) (M.div (ym d) (M.ofRat N))
      else s1.position i d,
    ymean := fun d => if d < dof then ym d else s1.ymean d,
    currentStep := s1.currentStep + 1 }

/-- `step` (lines 307-334): annealing, forces and velocity integration, then
position integration and re-centering. -/
def step {α : Type} (M : NumModel α) (s : LayoutState α) : LayoutState α :=
  stepIntegrate M (calculateAcceleration M (stepAnneal M s))

/-- `getEdgePosition` (lines 348-350). -/
def getEdgePosition {α : Type} (s : LayoutState α) : List (Option α) :=
  s.edgePosition

/-- `getNodePosition` (lines 336-338). -/
def getNodePosition {α : Type} (s : LayoutState α) : Nat → Nat → α :=
  s.position

/-- `_initializeNodeMass` (lines 466-471).  The source tests `node.type`, a
property the `GraphNode` constructor never assigns (the category tag is stored
at `node.attributes.type`), so the comparison reads `undefined`. -/
def initializeNodeMass {α : Type} (M : NumModel α) (node : GraphNode) : α :=
  if node.directType = some "device"
  then M.mul (M.ofRat node.degree) (M.ofRat 2)
  else M.div (M.ofRat node.degree) (M.ofRat 10)

/-- `_initializeNodeSize` (lines 458-464): constant placeholder. -/
def initializeNodeSize {α : Type} (M : NumModel α) (_node : GraphNode) : α :=
  M.ofRat (3/10)

/-- `_initializeNodePosition` (lines 447-456): one `randn(0, 2)` sample per
axis, sample at axis 2 scaled by 2; the ambient RNG is an oracle parameter
`prand` (node index, axis ↦ sample). -/
def initializeNodePosition {α : Type} (M : NumModel α) (prand : Nat → Nat → α)
    (index d : Nat) : α :=
  if d = 2 then M.mul (prand index d) (M.ofRat 2) else prand index d

/-- `new Array(len)` for an element-less allocation: `Array(undefined)` is the
one-element array `[undefined]` (only a lone numeric argument sets a length),
which is what the constructor's `new Array(this.numberOfEdges)` evaluates to,
`this.numberOfEdges` being undefined. -/
def jsNewArray {α : Type} (len : Option Nat) : List (Option α) :=
  match len with
  | some n => List.replicate n none
  | none => [none]

/-- The `GraphLayoutForceDirected` constructor (lines 257-305).
`nodeMapResolved` is the attached graph's `nodeMap` with the node references
resolved (index, node object); `eni` its `edgeNodeIndex`; `vrand` the RNG
oracle for the velocity loop (the loop over-iterates to `len·dof`, but the
out-of-range `Float64Array` writes are dropped, so slots `p < N·dof` hold
samples and nothing else changes).  Unresolved buffer slots (JS holes /
zero-filled typed arrays) are `ofRat 0`; no claim reads them. -/
def mkLayout {α : Type} (M : NumModel α) (numberOfNodes : Nat)
    (nodeMapResolved : List (Nat × GraphNode)) (eni : List Nat) (dof : Nat)
    (prand : Nat → Nat → α) (vrand : Nat → α) : LayoutState α :=
  let nmLookup := fun (i : Nat) =>
    (nodeMapResolved.find? (fun kv => kv.1 = i)).map (·.2)
  { numberOfNodes := numberOfNodes,
    dof := dof,
    dt := M.ofRat 10,
    currentStep := 0,
    position := fun i d =>
      match nmLookup i with
      | some _ => initializeNodePosition M prand i d
      | none => M.ofRat 0,
    velocity := fun p =>
      if p < numberOfNodes * dof then vrand p else M.ofRat 0,
    acceleration := fun _ => M.ofRat 0,
    distanceBuf := fun _ => M.ofRat 0,
    directionBuf := fun _ => M.ofRat 0,
    ymean := fun _ => M.ofRat 0,
    mass := fun i =>
      match nmLookup i with
      | some node => initializeNodeMass M node
      | none => M.ofRat 0,
    size := fun i =>
      match nmLookup i with
      | some node => initializeNodeSize M node
      | none => M.ofRat 0,
    edgeNodeIndex := eni,
    edgePosition := jsNewArray none,
    numberOfEdgesField := none }

/-!
## BFS correctness development

The specification of `generateSubGraph` is phrased with a hop-distance
relation over the adjacency structure of the parent graph.  `Reach adj s v n`
holds when some walk of length `n` along `adj` leads from `s` to `v`; the
shortest-hop distance from `s` to `v` is at most `k` iff `∃ n ≤ k, Reach`. -/

/-- adjacency of a node id in a node store (`[]` when absent) -/
def adjOf (m : List (String × GraphNode)) (v : String) : List String :=
  ((alookup m v).map (fun n => n.adj)).getD []

/-- traversal distance of a node id in a node store (`none` both for
`Infinity` and for an absent id; every use below is under a presence fact) -/
def distOf (m : List (String × GraphNode)) (v : String) : Option Nat :=
  (alookup m v).bind (fun n => n.distance)

/-- the label of a node known to be labelled -/
def labelD (m : List (String × GraphNode)) (v : String) : Nat :=
  (distOf m v).getD 0

/-- `Reach adj s v n`: a walk of length `n` along `adj` from `s` ends at `v`. -/
inductive Reach (adj : String → List String) (s : String) : String → Nat → Prop
  | zero : Reach adj s s 0
  | succ {u w : String} {n : Nat} :
      Reach adj s u n → w ∈ adj u → Reach adj s w (n + 1)

/-- two node stores with the same entries up to traversal distances -/
def SameShape (m0 m : List (String × GraphNode)) : Prop :=
  ∀ v, (alookup m v).map (fun n => { n with distance := none }) =
    (alookup m0 v).map (fun n => { n with distance := none })

/-- number of `Infinity`-distance entries (the BFS termination measure) -/
def countInf (m : List (String × GraphNode)) : Nat :=
  m.countP (fun kv => kv.2.distance = none)

theorem alookup_eq_none {β : Type} (l : List (String × β)) (k : String) :
    alookup l k = none ↔ k ∉ l.map Prod.fst := by
  induction l with
  | nil => simp [alookup]
  | cons kv rest ih =>
    by_cases h : kv.1 = k
    · simp only [alookup, if_pos h, List.map_cons, List.mem_cons]
      constructor
      · intro hc; exact absurd hc (by simp)
      · intro hc; exact absurd (Or.inl h.symm) hc
    · simp only [alookup, if_neg h, List.map_cons, List.mem_cons, ih]
      constructor
      · intro hc hor
        rcases hor with h1 | h1
        · exact h h1.symm
        · exact hc h1
      · intro hc h1; exact hc (Or.inr h1)

theorem alookup_isSome_iff {β : Type} (l : List (String × β)) (k : String) :
    (alookup l k).isSome ↔ k ∈ l.map Prod.fst := by
  constructor
  · intro h
    by_contra hc
    rw [← alookup_eq_none l k] at hc
    rw [hc] at h
    simp at h
  · intro h
    cases hl : alookup l k with
    | none => exact absurd ((alookup_eq_none l k).mp hl) (fun hc => hc h)
    | some _ => simp

theorem mset_of_not_mem {β : Type} (l : List (String × β)) (k : String)
    (v : β) (h : k ∉ l.map Prod.fst) : mset l k v = l ++ [(k, v)] := by
  induction l with
  | nil => simp [mset]
  | cons kv rest ih =>
    simp only [List.map_cons, List.mem_cons] at h
    push_neg at h
    simp [mset, Ne.symm h.1, ih h.2]

theorem nset_of_not_mem {β : Type} (l : List (Nat × β)) (k : Nat)
    (v : β) (h : k ∉ l.map Prod.fst) : nset l k v = l ++ [(k, v)] := by
  induction l with
  | nil => simp [nset]
  | cons kv rest ih =>
    simp only [List.map_cons, List.mem_cons] at h
    push_neg at h
    simp [nset, Ne.symm h.1, ih h.2]

theorem alookup_setDistance (m : List (String × GraphNode)) (w : String)
    (x : Option Nat) (v : String) :
    alookup (setDistance m w x) v =
      if v = w then (alookup m w).map (fun n => { n with distance := x })
      else alookup m v := by
  induction m with
  | nil => by_cases h : v = w <;> simp [setDistance, alookup, h]
  | cons kv rest ih =>
    by_cases hw : kv.1 = w
    · subst hw
      by_cases hv : v = kv.1
      · subst hv
        simp [setDistance, alookup]
      · have h1 : kv.1 ≠ v := fun h => hv h.symm
        simp [setDistance, alookup, h1, hv]
    · by_cases hv : kv.1 = v
      · subst hv
        have h1 : ¬ kv.1 = w := hw
        simp [setDistance, alookup, h1]
      · simp [setDistance, alookup, hw, hv, ih]

theorem distOf_setDistance (m : List (String × GraphNode)) (w : String)
    (x : Option Nat) (v : String) :
    distOf (setDistance m w x) v =
      if v = w then (if (alookup m w).isSome then x else none)
      else distOf m v := by
  by_cases h : v = w
  · subst h
    simp only [distOf, alookup_setDistance, if_pos rfl]
    cases alookup m v <;> simp
  · simp [distOf, alookup_setDistance, h]

theorem sameShape_refl (m : List (String × GraphNode)) : SameShape m m :=
  fun _ => rfl

theorem sameShape_setDistance (m0 m : List (String × GraphNode))
    (w : String) (x : Option Nat) (h : SameShape m0 m) :
    SameShape m0 (setDistance m w x) := by
  intro v
  rw [← h v, alookup_setDistance]
  by_cases hv : v = w
  · subst hv
    cases alookup m v <;> simp
  · simp [hv]

theorem sameShape_isSome (m0 m : List (String × GraphNode))
    (h : SameShape m0 m) (v : String) :
    (alookup m v).isSome = (alookup m0 v).isSome := by
  have := h v
  cases h1 : alookup m v <;> cases h2 : alookup m0 v <;>
    simp [h1, h2] at this ⊢

theorem sameShape_adjOf (m0 m : List (String × GraphNode))
    (h : SameShape m0 m) (v : String) : adjOf m v = adjOf m0 v := by
  have hv := h v
  cases h1 : alookup m v with
  | none =>
    rw [h1] at hv
    cases h2 : alookup m0 v with
    | none => simp [adjOf, h1, h2]
    | some n0 => rw [h2] at hv; exact absurd hv.symm (by simp)
  | some n =>
    rw [h1] at hv
    cases h2 : alookup m0 v with
    | none => rw [h2] at hv; exact absurd hv (by simp)
    | some n0 =>
      rw [h2] at hv
      have h3 : ({ n with distance := none } : GraphNode) =
          { n0 with distance := none } := by
        simpa using hv
      have := congrArg GraphNode.adj h3
      simpa [adjOf, h1, h2] using this

theorem adjOf_of_alookup (m : List (String × GraphNode)) (v : String)
    (nv : GraphNode) (h : alookup m v = some nv) : adjOf m v = nv.adj := by
  simp [adjOf, h]

theorem countInf_le_length (m : List (String × GraphNode)) :
    countInf m ≤ m.length := List.countP_le_length _

theorem length_setDistance (m : List (String × GraphNode)) (w : String)
    (x : Option Nat) : (setDistance m w x).length = m.length := by
  induction m with
  | nil => simp [setDistance]
  | cons kv rest ih => by_cases h : kv.1 = w <;> simp [setDistance, h, ih]

theorem countInf_setDistance_lt (m : List (String × GraphNode)) (w : String)
    (d : Nat) (nw : GraphNode) (hw : alookup m w = some nw)
    (hinf : nw.distance = none) :
    countInf (setDistance m w (some d)) + 1 = countInf m := by
  induction m with
  | nil => simp [alookup] at hw
  | cons kv rest ih =>
    by_cases h : kv.1 = w
    · simp only [alookup, if_pos h] at hw
      have hd : kv.2.distance = none := by rw [Option.some.inj hw]; exact hinf
      simp only [setDistance, if_pos h, countInf, List.countP_cons, hd]
      simp
    · simp only [alookup, if_neg h] at hw
      have := ih hw
      simp only [setDistance, if_neg h, countInf, List.countP_cons] at this ⊢
      omega

/-- well-formed node store: every adjacency reference is a key (the JS
adjacency set holds node objects; the id-keyed model requires them to be the
graph's own nodes) -/
def WfStore (m : List (String × GraphNode)) : Prop :=
  ∀ kv ∈ m, ∀ w ∈ kv.2.adj, (alookup m w).isSome

instance (m : List (String × GraphNode)) : Decidable (WfStore m) := by
  unfold WfStore
  infer_instance

theorem alookup_mem {β : Type} (m : List (String × β)) (key : String) (v : β)
    (h : alookup m key = some v) : (key, v) ∈ m := by
  induction m with
  | nil => simp [alookup] at h
  | cons kv rest ih =>
    by_cases hk : kv.1 = key
    · rw [alookup, if_pos hk] at h
      cases h
      subst hk
      exact List.mem_cons_self _ _
    · rw [alookup, if_neg hk] at h
      exact List.mem_cons_of_mem _ (ih h)

theorem wfStore_lookup (m : List (String × GraphNode)) (hwf : WfStore m)
    (v : String) (nv : GraphNode) (h : alookup m v = some nv) :
    ∀ w ∈ nv.adj, (alookup m w).isSome :=
  hwf (v, nv) (alookup_mem m v nv h)

theorem labelD_of_some (m : List (String × GraphNode)) (v : String) (d : Nat)
    (h : distOf m v = some d) : labelD m v = d := by
  simp [labelD, h]

theorem map_fst_zip_range {β : Type} (P : List β) :
    (P.zip (List.range P.length)).map Prod.fst = P :=
  List.map_fst_zip _ _ (by simp)

theorem map_fst_range_zip {β : Type} (P : List β) :
    ((List.range P.length).zip P).map Prod.fst = List.range P.length :=
  List.map_fst_zip _ _ (by simp)

theorem zip_range_snoc {β : Type} (P : List β) (u : β) :
    (P ++ [u]).zip (List.range (P.length + 1)) =
      P.zip (List.range P.length) ++ [(u, P.length)] := by
  rw [List.range_succ, List.zip_append (by simp)]
  rfl

theorem range_zip_snoc {β : Type} (P : List β) (u : β) :
    (List.range (P.length + 1)).zip (P ++ [u]) =
      (List.range P.length).zip P ++ [(P.length, u)] := by
  rw [List.range_succ, List.zip_append (by simp)]
  rfl

/-- the part of the BFS invariant common to loop heads and to states in the
middle of one node's adjacency scan -/
structure InvCore (g0 : List (String × GraphNode))
    (edges : List (String × GraphEdge)) (s : String) (k : Nat)
    (st : BfsState) (P E : List String) : Prop where
  shape : SameShape g0 st.nodes
  nodupP : P.Nodup
  nodupQ : st.queue.Nodup
  disjPQ : ∀ v ∈ P, v ∉ st.queue
  labelIff : ∀ v, (∃ d, distOf st.nodes v = some d) ↔ (v ∈ P ∨ v ∈ st.queue)
  labelSound : ∀ v d, distOf st.nodes v = some d → Reach (adjOf g0) s v d
  labelMin : ∀ v d m, distOf st.nodes v = some d →
    Reach (adjOf g0) s v m → d ≤ m
  qSorted : st.queue.Pairwise (fun a b => labelD st.nodes a ≤ labelD st.nodes b)
  pLe : ∀ u ∈ P, labelD st.nodes u ≤ k
  sMem : s ∈ P ∨ s ∈ st.queue
  subNim : st.sub.nodeIndexMap = P.zip (List.range P.length)
  subNm : st.sub.nodeMap = (List.range P.length).zip P
  subNodesKeys : st.sub.nodes.map Prod.fst = P
  nodeCountEq : st.nodeCount = P.length
  subEim : st.sub.edgeIndexMap = E.zip (List.range E.length)
  subEidm : st.sub.edgeIDMap = (List.range E.length).zip E
  subEdgesKeys : st.sub.edges.map Prod.fst = E
  edgeCountEq : st.edgeCount = E.length
  nodupE : E.Nodup

/-- the BFS invariant at a loop head -/
structure BfsInv (g0 : List (String × GraphNode))
    (edges : List (String × GraphEdge)) (s : String) (k : Nat)
    (st : BfsState) (P E : List String)
    extends InvCore g0 edges s k st P E : Prop where
  qSpread : ∀ a ∈ st.queue, ∀ b ∈ st.queue,
    labelD st.nodes b ≤ labelD st.nodes a + 1
  pClosed : ∀ u ∈ P, ∀ w ∈ adjOf g0 u, ∃ d, distOf st.nodes w = some d
  edgeChar : ∀ eid, eid ∈ E ↔ ∃ u ∈ P, ∃ w ∈ adjOf g0 u,
    ∃ e, getEdgeIDFromNodes edges u w = some e ∧ e.id = eid

/-- the BFS invariant while the adjacency set of the dequeued node `u`
(label `du`) is being scanned; `done` is the already-scanned prefix -/
structure BfsMidInv (g0 : List (String × GraphNode))
    (edges : List (String × GraphEdge)) (s : String) (k : Nat)
    (st : BfsState) (P E : List String) (u : String) (du : Nat)
    (done : List String)
    extends InvCore g0 edges s k st P E : Prop where
  uMem : u ∈ P
  uLabel : distOf st.nodes u = some du
  uLe : du ≤ k
  qLower : ∀ a ∈ st.queue, du ≤ labelD st.nodes a
  qUpper : ∀ a ∈ st.queue, labelD st.nodes a ≤ du + 1
  pClosedOld : ∀ v ∈ P, v ≠ u → ∀ w ∈ adjOf g0 v,
    ∃ d, distOf st.nodes w = some d
  uClosed : ∀ w ∈ done, ∃ d, distOf st.nodes w = some d
  edgeCharMid : ∀ eid, eid ∈ E ↔
    (∃ v ∈ P, v ≠ u ∧ ∃ w ∈ adjOf g0 v,
      ∃ e, getEdgeIDFromNodes edges v w = some e ∧ e.id = eid) ∨
    (∃ w ∈ done, ∃ e, getEdgeIDFromNodes edges u w = some e ∧ e.id = eid)

theorem recordEdge_nodes (edges : List (String × GraphEdge)) (uid w : String)
    (st : BfsState) : (recordEdge edges uid w st).nodes = st.nodes := by
  unfold recordEdge
  split
  · rfl
  · split <;> rfl

theorem recordEdge_queue (edges : List (String × GraphEdge)) (uid w : String)
    (st : BfsState) : (recordEdge edges uid w st).queue = st.queue := by
  unfold recordEdge
  split
  · rfl
  · split <;> rfl

theorem recordEdge_nodeParts (edges : List (String × GraphEdge))
    (uid w : String) (st : BfsState) :
    (recordEdge edges uid w st).sub.nodeIndexMap = st.sub.nodeIndexMap ∧
    (recordEdge edges uid w st).sub.nodeMap = st.sub.nodeMap ∧
    (recordEdge edges uid w st).sub.nodes = st.sub.nodes ∧
    (recordEdge edges uid w st).nodeCount = st.nodeCount := by
  unfold recordEdge
  split
  · exact ⟨rfl, rfl, rfl, rfl⟩
  · split <;> exact ⟨rfl, rfl, rfl, rfl⟩

theorem recordEdge_spec (edges : List (String × GraphEdge)) (uid w : String)
    (st : BfsState) (E : List String)
    (hEim : st.sub.edgeIndexMap = E.zip (List.range E.length))
    (hEidm : st.sub.edgeIDMap = (List.range E.length).zip E)
    (hEk : st.sub.edges.map Prod.fst = E)
    (hEc : st.edgeCount = E.length)
    (hNodup : E.Nodup) :
    ∃ E',
      (recordEdge edges uid w st).sub.edgeIndexMap =
        E'.zip (List.range E'.length) ∧
      (recordEdge edges uid w st).sub.edgeIDMap =
        (List.range E'.length).zip E' ∧
      (recordEdge edges uid w st).sub.edges.map Prod.fst = E' ∧
      (recordEdge edges uid w st).edgeCount = E'.length ∧
      E'.Nodup ∧
      (∀ eid, eid ∈ E' ↔ eid ∈ E ∨
        ∃ e, getEdgeIDFromNodes edges uid w = some e ∧ e.id = eid) := by
  unfold recordEdge
  cases hf : getEdgeIDFromNodes edges uid w with
  | none =>
    refine ⟨E, hEim, hEidm, hEk, hEc, hNodup, ?_⟩
    intro eid
    simp
  | some e =>
    dsimp only
    by_cases hmem : e.id ∈ E
    · have hsome : (alookup st.sub.edgeIndexMap e.id).isSome := by
        rw [hEim, alookup_isSome_iff, map_fst_zip_range]
        exact hmem
      rw [if_pos hsome]
      refine ⟨E, hEim, hEidm, hEk, hEc, hNodup, ?_⟩
      intro eid
      constructor
      · intro h; exact Or.inl h
      · rintro (h | ⟨e', he', hid⟩)
        · exact h
        · cases Option.some.inj he'
          rw [← hid]
          exact hmem
    · have hnone : ¬ (alookup st.sub.edgeIndexMap e.id).isSome := by
        rw [hEim, alookup_isSome_iff, map_fst_zip_range]
        exact hmem
      rw [if_neg hnone]
      refine ⟨E ++ [e.id], ?_, ?_, ?_, ?_, ?_, ?_⟩
      · have h1 : e.id ∉ st.sub.edgeIndexMap.map Prod.fst := by
          rw [hEim, map_fst_zip_range]; exact hmem
        rw [mset_of_not_mem _ _ _ h1, hEim, hEc]
        simp [zip_range_snoc]
      · show nset st.sub.edgeIDMap st.edgeCount e.id = _
        have hn : (E.length : Nat) ∉ st.sub.edgeIDMap.map Prod.fst := by
          rw [hEidm, map_fst_range_zip]
          simp
        rw [hEc, nset_of_not_mem _ _ _ hn, hEidm]
        simp [range_zip_snoc]
      · show (mset st.sub.edges e.id e).map Prod.fst = _
        have h1 : e.id ∉ st.sub.edges.map Prod.fst := by rw [hEk]; exact hmem
        rw [mset_of_not_mem _ _ _ h1]
        simp [hEk]
      · show st.edgeCount + 1 = (E ++ [e.id]).length
        rw [hEc]
        simp
      · refine List.nodup_append.2 ⟨hNodup, List.nodup_singleton _, ?_⟩
        intro x hx hx2
        simp only [List.mem_singleton] at hx2
        exact hmem (hx2 ▸ hx)
      · intro eid
        simp only [List.mem_append, List.mem_singleton]
        constructor
        · rintro (h | h)
          · exact Or.inl h
          · exact Or.inr ⟨e, rfl, h.symm⟩
        · rintro (h | ⟨e', he', hid⟩)
          · exact Or.inl h
          · cases Option.some.inj (hf ▸ he' : some e = some e')
            exact Or.inr hid.symm

theorem touchItem_sub (st : BfsState) (ud : Nat) (w : String) :
    (touchItem st ud w).sub = st.sub ∧
    (touchItem st ud w).nodeCount = st.nodeCount ∧
    (touchItem st ud w).edgeCount = st.edgeCount := by
  unfold touchItem
  split
  · exact ⟨rfl, rfl, rfl⟩
  · split <;> exact ⟨rfl, rfl, rfl⟩

theorem touchItem_of_labeled (st : BfsState) (ud : Nat) (w : String) (d : Nat)
    (h : distOf st.nodes w = some d) : touchItem st ud w = st := by
  unfold touchItem
  cases hl : alookup st.nodes w with
  | none => rfl
  | some nw =>
    have hd : nw.distance = some d := by simpa [distOf, hl] using h
    simp [hd]

theorem touchItem_of_unlabeled (st : BfsState) (ud : Nat) (w : String)
    (nw : GraphNode) (hl : alookup st.nodes w = some nw)
    (h : nw.distance = none) :
    touchItem st ud w =
      { st with nodes := setDistance st.nodes w (some (ud + 1)),
                queue := st.queue ++ [w] } := by
  unfold touchItem
  simp [hl, h]

theorem distOf_elim (m : List (String × GraphNode)) (v : String) (d : Nat)
    (h : distOf m v = some d) :
    ∃ nv, alookup m v = some nv ∧ nv.distance = some d := by
  cases hl : alookup m v with
  | none => rw [distOf, hl] at h; simp at h
  | some nv =>
    rw [distOf, hl] at h
    exact ⟨nv, rfl, h⟩

theorem distOf_none_of_unlabeled (m : List (String × GraphNode)) (w : String)
    (nw : GraphNode) (hl : alookup m w = some nw) (hd : nw.distance = none) :
    distOf m w = none := by
  rw [distOf, hl]
  exact hd

/-- Any walk from a labelled start to an unlabelled end crosses a
labelled-to-unlabelled adjacency, and its labelled endpoint is reached by a
strictly shorter prefix of the walk. -/
theorem path_entry (adj : String → List String) (s : String)
    (lab : String → Prop) (hs : lab s) :
    ∀ v m, Reach adj s v m → ¬ lab v →
      ∃ x y m1, lab x ∧ ¬ lab y ∧ y ∈ adj x ∧
        Reach adj s x m1 ∧ m1 + 1 ≤ m := by
  intro v m hr
  induction hr with
  | zero => intro hv; exact absurd hs hv
  | succ hru hwadj ih =>
    rename_i u w n
    intro hv
    by_cases hu : lab u
    · exact ⟨u, w, n, hu, hv, hwadj, hru, le_refl _⟩
    · obtain ⟨x, y, m1, h1, h2, h3, h4, h5⟩ := ih hu
      exact ⟨x, y, m1, h1, h2, h3, h4, Nat.le_succ_of_le h5⟩

/-- While `u` (label `du`) is being scanned, every walk to a node that is
still unlabelled has length at least `du + 1`. -/
theorem new_label_min (g0 : List (String × GraphNode))
    (edges : List (String × GraphEdge)) (s : String) (k : Nat)
    (st : BfsState) (P E : List String) (u : String) (du : Nat)
    (done : List String)
    (hm : BfsMidInv g0 edges s k st P E u du done)
    (w : String) (hwu : ¬ ∃ d, distOf st.nodes w = some d) :
    ∀ m, Reach (adjOf g0) s w m → du + 1 ≤ m := by
  intro m hr
  have hsl : ∃ d, distOf st.nodes s = some d :=
    (hm.toInvCore.labelIff s).2 hm.toInvCore.sMem
  obtain ⟨x, y, m1, hx, hy, hyx, hrx, hle⟩ :=
    path_entry (adjOf g0) s (fun v => ∃ d, distOf st.nodes v = some d)
      hsl w m hr hwu
  obtain ⟨dx, hdx⟩ := hx
  rcases (hm.toInvCore.labelIff x).1 ⟨dx, hdx⟩ with hxP | hxQ
  · by_cases hxu : x = u
    · subst hxu
      rw [hm.uLabel] at hdx
      cases hdx
      have := hm.toInvCore.labelMin x du m1 hm.uLabel hrx
      omega
    · obtain ⟨dy, hdy⟩ := hm.pClosedOld x hxP hxu y hyx
      exact absurd ⟨dy, hdy⟩ hy
  · have h1 := hm.qLower x hxQ
    have h2 := hm.toInvCore.labelMin x dx m1 hdx hrx
    have h3 : labelD st.nodes x = dx := labelD_of_some _ _ _ hdx
    omega

/-- Transfer of the common invariant core across a state change that keeps
the node store, queue and child-node bookkeeping, with the edge bookkeeping
re-established for a new edge list. -/
theorem invCore_transfer (g0 : List (String × GraphNode))
    (edges : List (String × GraphEdge)) (s : String) (k : Nat)
    (st1 st2 : BfsState) (P E E' : List String)
    (hc : InvCore g0 edges s k st1 P E)
    (hn : st2.nodes = st1.nodes) (hq : st2.queue = st1.queue)
    (h1 : st2.sub.nodeIndexMap = st1.sub.nodeIndexMap)
    (h2 : st2.sub.nodeMap = st1.sub.nodeMap)
    (h3 : st2.sub.nodes = st1.sub.nodes)
    (h4 : st2.nodeCount = st1.nodeCount)
    (he1 : st2.sub.edgeIndexMap = E'.zip (List.range E'.length))
    (he2 : st2.sub.edgeIDMap = (List.range E'.length).zip E')
    (he3 : st2.sub.edges.map Prod.fst = E')
    (he4 : st2.edgeCount = E'.length)
    (he5 : E'.Nodup) :
    InvCore g0 edges s k st2 P E' := by
  refine { shape := ?_, nodupP := hc.nodupP, nodupQ := ?_, disjPQ := ?_,
           labelIff := ?_, labelSound := ?_, labelMin := ?_, qSorted := ?_,
           pLe := ?_, sMem := ?_,
           subNim := h1.trans hc.subNim, subNm := h2.trans hc.subNm,
           subNodesKeys := ?_, nodeCountEq := h4.trans hc.nodeCountEq,
           subEim := he1, subEidm := he2, subEdgesKeys := he3,
           edgeCountEq := he4, nodupE := he5 }
  · rw [hn]; exact hc.shape
  · rw [hq]; exact hc.nodupQ
  · rw [hq]; exact hc.disjPQ
  · rw [hn, hq]; exact hc.labelIff
  · rw [hn]; exact hc.labelSound
  · rw [hn]; exact hc.labelMin
  · rw [hn, hq]; exact hc.qSorted
  · rw [hn]; exact hc.pLe
  · rw [hq]; exact hc.sMem
  · rw [h3]; exact hc.subNodesKeys

/-- One adjacency item preserves the mid-scan invariant, keeps the
termination measure, and never unsets a label. -/
theorem processItem_mid (g0 : List (String × GraphNode))
    (edges : List (String × GraphEdge)) (s : String) (k : Nat)
    (u : String) (du : Nat) (P E done : List String) (w : String)
    (st : BfsState) (hwf : WfStore g0)
    (hm : BfsMidInv g0 edges s k st P E u du done)
    (hw : w ∈ adjOf g0 u) :
    ∃ E', BfsMidInv g0 edges s k (processItem edges u du st w) P E' u du
        (done ++ [w]) ∧
      (processItem edges u du st w).queue.length +
        countInf (processItem edges u du st w).nodes =
        st.queue.length + countInf st.nodes ∧
      (∀ v d, distOf st.nodes v = some d →
        distOf (processItem edges u du st w).nodes v = some d) := by
  obtain ⟨nu, hnu, hnud⟩ := distOf_elim _ _ _ hm.uLabel
  -- `w` is a key of the current store
  have hu0 : (alookup g0 u).isSome := by
    rw [← sameShape_isSome g0 st.nodes hm.toInvCore.shape u, hnu]
    rfl
  obtain ⟨nu0, hnu0⟩ := Option.isSome_iff_exists.1 hu0
  have hw0 : w ∈ nu0.adj := by
    rw [← adjOf_of_alookup g0 u nu0 hnu0]
    exact hw
  have hwk : (alookup st.nodes w).isSome := by
    rw [sameShape_isSome g0 st.nodes hm.toInvCore.shape w]
    exact wfStore_lookup g0 hwf u nu0 hnu0 w hw0
  obtain ⟨nw, hnw⟩ := Option.isSome_iff_exists.1 hwk
  cases hnwd : nw.distance with
  | some dw =>
    -- already labelled: the distance branch is a no-op
    have hlab : distOf st.nodes w = some dw := by rw [distOf, hnw]; exact hnwd
    have ht : touchItem st du w = st := touchItem_of_labeled st du w dw hlab
    have hpi : processItem edges u du st w = recordEdge edges u w st := by
      rw [processItem, ht]
    obtain ⟨E', he1, he2, he3, he4, he5, hiff⟩ :=
      recordEdge_spec edges u w st E hm.toInvCore.subEim hm.toInvCore.subEidm
        hm.toInvCore.subEdgesKeys hm.toInvCore.edgeCountEq hm.toInvCore.nodupE
    obtain ⟨hp1, hp2, hp3, hp4⟩ := recordEdge_nodeParts edges u w st
    have hn := recordEdge_nodes edges u w st
    have hq := recordEdge_queue edges u w st
    refine ⟨E', ?_, ?_, ?_⟩
    · refine
        { toInvCore := invCore_transfer g0 edges s k st _ P E E' hm.toInvCore
            (hpi ▸ hn) (hpi ▸ hq) (hpi ▸ hp1) (hpi ▸ hp2) (hpi ▸ hp3)
            (hpi ▸ hp4) (hpi ▸ he1) (hpi ▸ he2) (hpi ▸ he3) (hpi ▸ he4) he5,
          uMem := hm.uMem, uLabel := ?_, uLe := hm.uLe,
          qLower := ?_, qUpper := ?_, pClosedOld := ?_, uClosed := ?_,
          edgeCharMid := ?_ }
      · rw [hpi, hn]; exact hm.uLabel
      · rw [hpi, hn, hq]; exact hm.qLower
      · rw [hpi, hn, hq]; exact hm.qUpper
      · rw [hpi, hn]; exact hm.pClosedOld
      · rw [hpi, hn]
        intro w' hw'
        rcases List.mem_append.1 hw' with h | h
        · exact hm.uClosed w' h
        · rw [List.mem_singleton] at h
          subst h
          exact ⟨dw, hlab⟩
      · intro eid
        rw [hiff, hm.edgeCharMid]
        constructor
        · rintro (h | h)
          · rcases h with h | ⟨w', h1, h2⟩
            · exact Or.inl h
            · exact Or.inr ⟨w', List.mem_append.2 (Or.inl h1), h2⟩
          · exact Or.inr ⟨w, List.mem_append.2 (Or.inr (List.mem_singleton.2 rfl)), h⟩
        · rintro (h | ⟨w', h1, h2⟩)
          · exact Or.inl (Or.inl h)
          · rcases List.mem_append.1 h1 with h1 | h1
            · exact Or.inl (Or.inr ⟨w', h1, h2⟩)
            · rw [List.mem_singleton] at h1
              subst h1
              exact Or.inr h2
    · rw [hpi, hn, hq]
    · intro v d hv
      rw [hpi, hn]
      exact hv
  | none =>
    -- unlabelled: label it `du + 1` and push it
    have hwNone : distOf st.nodes w = none :=
      distOf_none_of_unlabeled st.nodes w nw hnw hnwd
    have hwNotLab : ¬ ∃ d, distOf st.nodes w = some d := by
      rintro ⟨d, hd⟩
      rw [hwNone] at hd
      exact Option.noConfusion hd
    have hwNotP : w ∉ P := fun h =>
      hwNotLab ((hm.toInvCore.labelIff w).2 (Or.inl h))
    have hwNotQ : w ∉ st.queue := fun h =>
      hwNotLab ((hm.toInvCore.labelIff w).2 (Or.inr h))
    have huw : u ≠ w := fun h =>
      hwNotLab ⟨du, h ▸ hm.uLabel⟩
    have ht : touchItem st du w =
        { st with nodes := setDistance st.nodes w (some (du + 1)),
                  queue := st.queue ++ [w] } :=
      touchItem_of_unlabeled st du w nw hnw hnwd
    set st1 : BfsState :=
      { st with nodes := setDistance st.nodes w (some (du + 1)),
                queue := st.queue ++ [w] } with hst1
    have hpi : processItem edges u du st w = recordEdge edges u w st1 := by
      rw [processItem, ht]
    have hD : ∀ v, distOf st1.nodes v =
        if v = w then some (du + 1) else distOf st.nodes v := by
      intro v
      show distOf (setDistance st.nodes w (some (du + 1))) v = _
      rw [distOf_setDistance]
      by_cases h : v = w
      · simp [h, hwk]
      · simp [h]
    have hL : ∀ v, v ≠ w → labelD st1.nodes v = labelD st.nodes v := by
      intro v hv
      rw [labelD, hD v, if_neg hv]
      rfl
    have hLw : labelD st1.nodes w = du + 1 := by
      rw [labelD, hD w, if_pos rfl]
      rfl
    have hpers : ∀ v d, distOf st.nodes v = some d →
        distOf st1.nodes v = some d := by
      intro v d hv
      have hvw : v ≠ w := by
        rintro rfl
        rw [hwNone] at hv
        exact Option.noConfusion hv
      rw [hD v, if_neg hvw]
      exact hv
    -- the core at the intermediate (labelled, pushed) state
    have hcore1 : InvCore g0 edges s k st1 P E := by
      refine
        { shape := sameShape_setDistance g0 st.nodes w _ hm.toInvCore.shape,
          nodupP := hm.toInvCore.nodupP,
          nodupQ := ?_, disjPQ := ?_, labelIff := ?_, labelSound := ?_,
          labelMin := ?_, qSorted := ?_, pLe := ?_, sMem := ?_,
          subNim := hm.toInvCore.subNim, subNm := hm.toInvCore.subNm,
          subNodesKeys := hm.toInvCore.subNodesKeys,
          nodeCountEq := hm.toInvCore.nodeCountEq,
          subEim := hm.toInvCore.subEim, subEidm := hm.toInvCore.subEidm,
          subEdgesKeys := hm.toInvCore.subEdgesKeys,
          edgeCountEq := hm.toInvCore.edgeCountEq,
          nodupE := hm.toInvCore.nodupE }
      · show (st.queue ++ [w]).Nodup
        refine List.nodup_append.2 ⟨hm.toInvCore.nodupQ, List.nodup_singleton _, ?_⟩
        intro x hx hx2
        simp only [List.mem_singleton] at hx2
        exact hwNotQ (hx2 ▸ hx)
      · intro v hv
        show v ∉ st.queue ++ [w]
        rw [List.mem_append, List.mem_singleton]
        rintro (h | h)
        · exact hm.toInvCore.disjPQ v hv h
        · exact hwNotP (h ▸ hv)
      · intro v
        show (∃ d, distOf st1.nodes v = some d) ↔ v ∈ P ∨ v ∈ st.queue ++ [w]
        rw [hD v]
        by_cases h : v = w
        · subst h
          simp [hwNotP]
        · rw [if_neg h, hm.toInvCore.labelIff v, List.mem_append,
            List.mem_singleton]
          constructor
          · rintro (h1 | h1)
            · exact Or.inl h1
            · exact Or.inr (Or.inl h1)
          · rintro (h1 | h1 | h1)
            · exact Or.inl h1
            · exact Or.inr h1
            · exact absurd h1 h
      · intro v d hv
        rw [hD v] at hv
        by_cases h : v = w
        · rw [if_pos h] at hv
          cases hv
          subst h
          exact Reach.succ (hm.toInvCore.labelSound u du hm.uLabel) hw
        · rw [if_neg h] at hv
          exact hm.toInvCore.labelSound v d hv
      · intro v d m hv hr
        rw [hD v] at hv
        by_cases h : v = w
        · rw [if_pos h] at hv
          cases hv
          subst h
          exact new_label_min g0 edges s k st P E u du done hm v hwNotLab m hr
        · rw [if_neg h] at hv
          exact hm.toInvCore.labelMin v d m hv hr
      · show (st.queue ++ [w]).Pairwise
          (fun a b => labelD st1.nodes a ≤ labelD st1.nodes b)
        refine List.pairwise_append.2 ⟨?_, List.pairwise_singleton _ _, ?_⟩
        · refine List.Pairwise.imp_of_mem ?_ hm.toInvCore.qSorted
          intro a b ha hb hab
          rw [hL a (fun h => hwNotQ (h ▸ ha)), hL b (fun h => hwNotQ (h ▸ hb))]
          exact hab
        · intro a ha b hb
          rw [List.mem_singleton] at hb
          subst hb
          rw [hL a (fun h => hwNotQ (h ▸ ha)), hLw]
          exact hm.qUpper a ha
      · intro v hv
        rw [hL v (fun h => hwNotP (h ▸ hv))]
        exact hm.toInvCore.pLe v hv
      · rcases hm.toInvCore.sMem with h | h
        · exact Or.inl h
        · exact Or.inr (List.mem_append.2 (Or.inl h))
    obtain ⟨E', he1, he2, he3, he4, he5, hiff⟩ :=
      recordEdge_spec edges u w st1 E hcore1.subEim hcore1.subEidm
        hcore1.subEdgesKeys hcore1.edgeCountEq hcore1.nodupE
    obtain ⟨hp1, hp2, hp3, hp4⟩ := recordEdge_nodeParts edges u w st1
    have hn := recordEdge_nodes edges u w st1
    have hq := recordEdge_queue edges u w st1
    refine ⟨E', ?_, ?_, ?_⟩
    · refine
        { toInvCore := invCore_transfer g0 edges s k st1 _ P E E' hcore1
            (hpi ▸ hn) (hpi ▸ hq) (hpi ▸ hp1) (hpi ▸ hp2) (hpi ▸ hp3)
            (hpi ▸ hp4) (hpi ▸ he1) (hpi ▸ he2) (hpi ▸ he3) (hpi ▸ he4) he5,
          uMem := hm.uMem, uLabel := ?_, uLe := hm.uLe,
          qLower := ?_, qUpper := ?_, pClosedOld := ?_, uClosed := ?_,
          edgeCharMid := ?_ }
      · rw [hpi, hn]
        exact hpers u du hm.uLabel
      · rw [hpi, hn, hq]
        intro a ha
        rcases List.mem_append.1 ha with h | h
        · rw [hL a (fun hh => hwNotQ (hh ▸ h))]
          exact hm.qLower a h
        · rw [List.mem_singleton] at h
          subst h
          rw [hLw]
          omega
      · rw [hpi, hn, hq]
        intro a ha
        rcases List.mem_append.1 ha with h | h
        · rw [hL a (fun hh => hwNotQ (hh ▸ h))]
          exact hm.qUpper a h
        · rw [List.mem_singleton] at h
          subst h
          rw [hLw]
      · rw [hpi, hn]
        intro v hv hvu w' hw'
        obtain ⟨d, hd⟩ := hm.pClosedOld v hv hvu w' hw'
        exact ⟨d, hpers w' d hd⟩
      · rw [hpi, hn]
        intro w' hw'
        rcases List.mem_append.1 hw' with h | h
        · obtain ⟨d, hd⟩ := hm.uClosed w' h
          exact ⟨d, hpers w' d hd⟩
        · rw [List.mem_singleton] at h
          subst h
          exact ⟨du + 1, by rw [hD w', if_pos rfl]⟩
      · intro eid
        rw [hiff, hm.edgeCharMid]
        constructor
        · rintro (h | h)
          · rcases h with h | ⟨w', h1, h2⟩
            · exact Or.inl h
            · exact Or.inr ⟨w', List.mem_append.2 (Or.inl h1), h2⟩
          · exact Or.inr ⟨w, List.mem_append.2 (Or.inr (List.mem_singleton.2 rfl)), h⟩
        · rintro (h | ⟨w', h1, h2⟩)
          · exact Or.inl (Or.inl h)
          · rcases List.mem_append.1 h1 with h1 | h1
            · exact Or.inl (Or.inr ⟨w', h1, h2⟩)
            · rw [List.mem_singleton] at h1
              subst h1
              exact Or.inr h2
    · have hq1 : st1.queue = st.queue ++ [w] := by rw [hst1]
      have hn1 : st1.nodes = setDistance st.nodes w (some (du + 1)) := by
        rw [hst1]
      rw [hpi, hn, hq, hq1, hn1, List.length_append]
      simp only [List.length_singleton]
      have h2 := countInf_setDistance_lt st.nodes w (du + 1) nw hnw hnwd
      omega
    · intro v d hv
      rw [hpi, hn]
      exact hpers v d hv

/-- Scanning a list of adjacency items of `u` preserves the mid-scan
invariant. -/
theorem processItems_mid (g0 : List (String × GraphNode))
    (edges : List (String × GraphEdge)) (s : String) (k : Nat)
    (u : String) (du : Nat) (P : List String) (hwf : WfStore g0) :
    ∀ (ws done : List String) (st : BfsState) (E : List String),
      BfsMidInv g0 edges s k st P E u du done →
      (∀ w ∈ ws, w ∈ adjOf g0 u) →
      ∃ E', BfsMidInv g0 edges s k (ws.foldl (processItem edges u du) st) P
          E' u du (done ++ ws) ∧
        (ws.foldl (processItem edges u du) st).queue.length +
          countInf (ws.foldl (processItem edges u du) st).nodes =
          st.queue.length + countInf st.nodes ∧
        (∀ v d, distOf st.nodes v = some d →
          distOf (ws.foldl (processItem edges u du) st).nodes v = some d) := by
  intro ws
  induction ws with
  | nil =>
    intro done st E hm _
    exact ⟨E, by simpa using hm, rfl, fun v d h => h⟩
  | cons w ws ih =>
    intro done st E hm hws
    obtain ⟨E1, hm1, hc1, hp1⟩ :=
      processItem_mid g0 edges s k u du P E done w st hwf hm (hws w (by simp))
    obtain ⟨E', hm', hc', hp'⟩ :=
      ih (done ++ [w]) (processItem edges u du st w) E1 hm1
        (fun x hx => hws x (by simp [hx]))
    refine ⟨E', ?_, ?_, ?_⟩
    · rw [List.foldl_cons]
      have : done ++ [w] ++ ws = done ++ w :: ws := by
        rw [List.append_assoc, List.singleton_append]
      rw [← this]
      exact hm'
    · rw [List.foldl_cons, hc', hc1]
    · intro v d hv
      rw [List.foldl_cons]
      exact hp' v d (hp1 v d hv)

/-- Accepting the dequeued head into the child graph yields the mid-scan
invariant with an empty scanned prefix. -/
theorem accept_mid (g0 : List (String × GraphNode))
    (edges : List (String × GraphEdge)) (s : String) (k : Nat)
    (st : BfsState) (P E : List String) (u : String) (rest : List String)
    (nu : GraphNode) (du : Nat)
    (hinv : BfsInv g0 edges s k st P E)
    (hq : st.queue = u :: rest)
    (hnu : alookup st.nodes u = some nu)
    (hnud : nu.distance = some du)
    (hle : du ≤ k) :
    BfsMidInv g0 edges s k
      { nodes := st.nodes, queue := rest,
        sub := { st.sub with
          nodeIndexMap := mset st.sub.nodeIndexMap u st.nodeCount,
          nodeMap := nset st.sub.nodeMap st.nodeCount u,
          nodes := mset st.sub.nodes u nu },
        nodeCount := st.nodeCount + 1, edgeCount := st.edgeCount }
      (P ++ [u]) E u du [] := by
  have hdu : distOf st.nodes u = some du := by rw [distOf, hnu]; exact hnud
  have huq : u ∈ st.queue := by rw [hq]; exact List.mem_cons_self u rest
  have hunotP : u ∉ P := fun h => hinv.toInvCore.disjPQ u h huq
  have hunotRest : u ∉ rest := by
    have := hinv.toInvCore.nodupQ
    rw [hq] at this
    exact (List.nodup_cons.1 this).1
  have hsorted : rest.Pairwise
      (fun a b => labelD st.nodes a ≤ labelD st.nodes b) := by
    have := hinv.toInvCore.qSorted
    rw [hq] at this
    exact this.of_cons
  have hheadle : ∀ a ∈ rest, labelD st.nodes u ≤ labelD st.nodes a := by
    have := hinv.toInvCore.qSorted
    rw [hq] at this
    exact (List.pairwise_cons.1 this).1
  have hLu : labelD st.nodes u = du := labelD_of_some _ _ _ hdu
  refine
    { shape := hinv.toInvCore.shape,
      nodupP := ?_, nodupQ := ?_, disjPQ := ?_, labelIff := ?_,
      labelSound := hinv.toInvCore.labelSound,
      labelMin := hinv.toInvCore.labelMin,
      qSorted := hsorted, pLe := ?_, sMem := ?_,
      subNim := ?_, subNm := ?_, subNodesKeys := ?_, nodeCountEq := ?_,
      subEim := hinv.toInvCore.subEim, subEidm := hinv.toInvCore.subEidm,
      subEdgesKeys := hinv.toInvCore.subEdgesKeys,
      edgeCountEq := hinv.toInvCore.edgeCountEq,
      nodupE := hinv.toInvCore.nodupE,
      uMem := List.mem_append.2 (Or.inr (List.mem_singleton.2 rfl)),
      uLabel := hdu, uLe := hle,
      qLower := ?_, qUpper := ?_, pClosedOld := ?_, uClosed := ?_,
      edgeCharMid := ?_ }
  · refine List.nodup_append.2
      ⟨hinv.toInvCore.nodupP, List.nodup_singleton _, ?_⟩
    intro x hx hx2
    simp only [List.mem_singleton] at hx2
    exact hunotP (hx2 ▸ hx)
  · exact (List.nodup_cons.1 (hq ▸ hinv.toInvCore.nodupQ)).2
  · intro v hv
    show v ∉ rest
    rcases List.mem_append.1 hv with h | h
    · intro hc
      exact hinv.toInvCore.disjPQ v h (by rw [hq]; exact List.mem_cons_of_mem _ hc)
    · rw [List.mem_singleton] at h
      subst h
      exact hunotRest
  · intro v
    show _ ↔ v ∈ P ++ [u] ∨ v ∈ rest
    rw [hinv.toInvCore.labelIff v, hq]
    simp only [List.mem_append, List.mem_singleton, List.mem_cons]
    tauto
  · intro v hv
    rcases List.mem_append.1 hv with h | h
    · exact hinv.toInvCore.pLe v h
    · rw [List.mem_singleton] at h
      subst h
      rw [hLu]
      exact hle
  · rcases hinv.toInvCore.sMem with h | h
    · exact Or.inl (List.mem_append.2 (Or.inl h))
    · rw [hq] at h
      rcases List.mem_cons.1 h with h | h
      · exact Or.inl (List.mem_append.2 (Or.inr (List.mem_singleton.2 h)))
      · exact Or.inr h
  · show mset st.sub.nodeIndexMap u st.nodeCount = _
    have h1 : u ∉ st.sub.nodeIndexMap.map Prod.fst := by
      rw [hinv.toInvCore.subNim, map_fst_zip_range]
      exact hunotP
    rw [mset_of_not_mem _ _ _ h1, hinv.toInvCore.subNim,
      hinv.toInvCore.nodeCountEq]
    simp [zip_range_snoc]
  · show nset st.sub.nodeMap st.nodeCount u = _
    have h1 : P.length ∉ st.sub.nodeMap.map Prod.fst := by
      rw [hinv.toInvCore.subNm, map_fst_range_zip]
      simp
    rw [hinv.toInvCore.nodeCountEq, nset_of_not_mem _ _ _ h1,
      hinv.toInvCore.subNm]
    simp [range_zip_snoc]
  · show (mset st.sub.nodes u nu).map Prod.fst = _
    have h1 : u ∉ st.sub.nodes.map Prod.fst := by
      rw [hinv.toInvCore.subNodesKeys]
      exact hunotP
    rw [mset_of_not_mem _ _ _ h1]
    simp [hinv.toInvCore.subNodesKeys]
  · show st.nodeCount + 1 = (P ++ [u]).length
    rw [hinv.toInvCore.nodeCountEq]
    simp
  · intro a ha
    rw [← hLu]
    exact hheadle a ha
  · intro a ha
    have := hinv.qSpread u huq a (by rw [hq]; exact List.mem_cons_of_mem _ ha)
    rw [hLu] at this
    exact this
  · intro v hv hvu w hw
    rcases List.mem_append.1 hv with h | h
    · exact hinv.pClosed v h w hw
    · rw [List.mem_singleton] at h
      exact absurd h hvu
  · intro w hw
    simp at hw
  · intro eid
    rw [hinv.edgeChar eid]
    constructor
    · rintro ⟨v, hv, w, hw, he⟩
      have hvu : v ≠ u := fun h => hunotP (h ▸ hv)
      exact Or.inl ⟨v, List.mem_append.2 (Or.inl hv), hvu, w, hw, he⟩
    · rintro (⟨v, hv, hvu, w, hw, he⟩ | ⟨w, hw, he⟩)
      · rcases List.mem_append.1 hv with h | h
        · exact ⟨v, h, w, hw, he⟩
        · rw [List.mem_singleton] at h
          exact absurd h hvu
      · simp at hw

/-- Once the whole adjacency set of `u` is scanned, the loop-head invariant
holds again. -/
theorem mid_to_inv (g0 : List (String × GraphNode))
    (edges : List (String × GraphEdge)) (s : String) (k : Nat)
    (st : BfsState) (P E : List String) (u : String) (du : Nat)
    (hm : BfsMidInv g0 edges s k st P E u du (adjOf g0 u)) :
    BfsInv g0 edges s k st P E := by
  refine { toInvCore := hm.toInvCore, qSpread := ?_, pClosed := ?_,
           edgeChar := ?_ }
  · intro a ha b hb
    have h1 := hm.qLower a ha
    have h2 := hm.qUpper b hb
    omega
  · intro v hv w hw
    by_cases hvu : v = u
    · subst hvu
      exact hm.uClosed w hw
    · exact hm.pClosedOld v hv hvu w hw
  · intro eid
    rw [hm.edgeCharMid]
    constructor
    · rintro (⟨v, hv, hvu, w, hw, he⟩ | ⟨w, hw, he⟩)
      · exact ⟨v, hv, w, hw, he⟩
      · exact ⟨u, hm.uMem, w, hw, he⟩
    · rintro ⟨v, hv, w, hw, he⟩
      by_cases hvu : v = u
      · subst hvu
        exact Or.inr ⟨w, hw, he⟩
      · exact Or.inl ⟨v, hv, hvu, w, hw, he⟩

theorem bfsLoop_zero (edges : List (String × GraphEdge)) (k : Nat)
    (st : BfsState) : bfsLoop edges k 0 st = st := rfl

theorem bfsLoop_nil (edges : List (String × GraphEdge)) (k fuel : Nat)
    (st : BfsState) (hq : st.queue = []) :
    bfsLoop edges k (fuel + 1) st = st := by
  rw [bfsLoop, hq]

theorem bfsLoop_break (edges : List (String × GraphEdge)) (k fuel : Nat)
    (st : BfsState) (u : String) (rest : List String) (nu : GraphNode)
    (du : Nat) (hq : st.queue = u :: rest)
    (hnu : alookup st.nodes u = some nu) (hnud : nu.distance = some du)
    (hk : k < du) :
    bfsLoop edges k (fuel + 1) st = st := by
  rw [bfsLoop, hq]
  dsimp only
  rw [hnu]
  dsimp only
  rw [hnud]
  dsimp only
  rw [if_pos hk]

theorem bfsLoop_step (edges : List (String × GraphEdge)) (k fuel : Nat)
    (st : BfsState) (u : String) (rest : List String) (nu : GraphNode)
    (du : Nat) (hq : st.queue = u :: rest)
    (hnu : alookup st.nodes u = some nu) (hnud : nu.distance = some du)
    (hk : ¬ k < du) :
    bfsLoop edges k (fuel + 1) st =
      bfsLoop edges k fuel
        (processNode edges { st with queue := rest } u nu du) := by
  rw [bfsLoop, hq]
  dsimp only
  rw [hnu]
  dsimp only
  rw [hnud]
  dsimp only
  rw [if_neg hk]

/-- The BFS loop preserves the invariant to its exit, never unsets a label,
and on exit every still-queued node has a label above the cutoff. -/
theorem bfsLoop_spec (g0 : List (String × GraphNode))
    (edges : List (String × GraphEdge)) (s : String) (k : Nat)
    (hwf : WfStore g0) :
    ∀ (fuel : Nat) (st : BfsState) (P E : List String),
      BfsInv g0 edges s k st P E →
      st.queue.length + countInf st.nodes ≤ fuel →
      ∃ P' E', BfsInv g0 edges s k (bfsLoop edges k fuel st) P' E' ∧
        (∀ v d, distOf st.nodes v = some d →
          distOf (bfsLoop edges k fuel st).nodes v = some d) ∧
        (∀ v, v ∈ (bfsLoop edges k fuel st).queue → ∀ d,
          distOf (bfsLoop edges k fuel st).nodes v = some d → k < d) := by
  intro fuel
  induction fuel with
  | zero =>
    intro st P E hinv hfuel
    have hq : st.queue = [] := by
      cases hq : st.queue with
      | nil => rfl
      | cons a l =>
        rw [hq] at hfuel
        simp at hfuel
    refine ⟨P, E, ?_, ?_, ?_⟩
    · rw [bfsLoop_zero]
      exact hinv
    · rw [bfsLoop_zero]
      exact fun v d h => h
    · rw [bfsLoop_zero]
      intro v hv
      rw [hq] at hv
      exact absurd hv (List.not_mem_nil v)
  | succ fuel ih =>
    intro st P E hinv hfuel
    cases hq : st.queue with
    | nil =>
      rw [bfsLoop_nil edges k fuel st hq]
      refine ⟨P, E, hinv, fun v d h => h, ?_⟩
      intro v hv
      rw [hq] at hv
      exact absurd hv (List.not_mem_nil v)
    | cons u rest =>
      have huq : u ∈ st.queue := by
        rw [hq]
        exact List.mem_cons_self u rest
      obtain ⟨du, hdu⟩ := (hinv.toInvCore.labelIff u).2 (Or.inr huq)
      obtain ⟨nu, hnu, hnud⟩ := distOf_elim _ _ _ hdu
      by_cases hk : k < du
      · rw [bfsLoop_break edges k fuel st u rest nu du hq hnu hnud hk]
        refine ⟨P, E, hinv, fun v d h => h, ?_⟩
        intro v hv d hvd
        rw [hq] at hv
        rcases List.mem_cons.1 hv with h | h
        · subst h
          rw [hdu] at hvd
          cases hvd
          exact hk
        · have hle := (List.pairwise_cons.1
            (hq ▸ hinv.toInvCore.qSorted)).1 v h
          have h1 : labelD st.nodes u = du := labelD_of_some _ _ _ hdu
          have h2 : labelD st.nodes v = d := labelD_of_some _ _ _ hvd
          omega
      · have hmid := accept_mid g0 edges s k st P E u rest nu du hinv hq
          hnu hnud (Nat.not_lt.1 hk)
        have hadj : nu.adj = adjOf g0 u := by
          rw [← adjOf_of_alookup st.nodes u nu hnu,
            sameShape_adjOf g0 st.nodes hinv.toInvCore.shape u]
        obtain ⟨E', hm', hc', hp'⟩ :=
          processItems_mid g0 edges s k u du (P ++ [u]) hwf (adjOf g0 u) []
            { nodes := st.nodes, queue := rest,
              sub := { st.sub with
                nodeIndexMap := mset st.sub.nodeIndexMap u st.nodeCount,
                nodeMap := nset st.sub.nodeMap st.nodeCount u,
                nodes := mset st.sub.nodes u nu },
              nodeCount := st.nodeCount + 1, edgeCount := st.edgeCount }
            E hmid (fun w h => h)
        rw [List.nil_append] at hm'
        have hinv2 := mid_to_inv g0 edges s k _ (P ++ [u]) E' u du hm'
        have hcount : ((adjOf g0 u).foldl (processItem edges u du)
            { nodes := st.nodes, queue := rest,
              sub := { st.sub with
                nodeIndexMap := mset st.sub.nodeIndexMap u st.nodeCount,
                nodeMap := nset st.sub.nodeMap st.nodeCount u,
                nodes := mset st.sub.nodes u nu },
              nodeCount := st.nodeCount + 1,
              edgeCount := st.edgeCount }).queue.length +
            countInf ((adjOf g0 u).foldl (processItem edges u du)
            { nodes := st.nodes, queue := rest,
              sub := { st.sub with
                nodeIndexMap := mset st.sub.nodeIndexMap u st.nodeCount,
                nodeMap := nset st.sub.nodeMap st.nodeCount u,
                nodes := mset st.sub.nodes u nu },
              nodeCount := st.nodeCount + 1,
              edgeCount := st.edgeCount }).nodes ≤ fuel := by
          rw [hc']
          show rest.length + countInf st.nodes ≤ fuel
          rw [hq] at hfuel
          simp only [List.length_cons] at hfuel
          omega
        obtain ⟨P', E'', hinvF, hpersF, hfinF⟩ :=
          ih _ (P ++ [u]) E' hinv2 hcount
        rw [bfsLoop_step edges k fuel st u rest nu du hq hnu hnud hk]
        have hpn : processNode edges { st with queue := rest } u nu du =
            (adjOf g0 u).foldl (processItem edges u du)
              { nodes := st.nodes, queue := rest,
                sub := { st.sub with
                  nodeIndexMap := mset st.sub.nodeIndexMap u st.nodeCount,
                  nodeMap := nset st.sub.nodeMap st.nodeCount u,
                  nodes := mset st.sub.nodes u nu },
                nodeCount := st.nodeCount + 1,
                edgeCount := st.edgeCount } := by
          rw [← hadj]
          rfl
        rw [hpn]
        refine ⟨P', E'', hinvF, ?_, hfinF⟩
        intro v d hv
        exact hpersF v d (hp' v d hv)

/-- the BFS state just before the loop of `generateSubGraph` -/
def bfsStart (g : Graph) (S : String) : BfsState :=
  { nodes := setDistance g.nodes S (some 0), queue := [S],
    sub := SubGraph.empty, nodeCount := 0, edgeCount := 0 }

/-- the BFS state at the loop's exit -/
def bfsFinal (g : Graph) (S : String) (k : Nat) : BfsState :=
  bfsLoop g.edges k ((setDistance g.nodes S (some 0)).length + 1)
    (bfsStart g S)

theorem generateSubGraph_eq (g : Graph) (S : String) (k : Nat)
    (nS : GraphNode) (hS : alookup g.nodes S = some nS) :
    generateSubGraph g (some S) k =
      Except.ok
        { parentNodes := (bfsFinal g S k).nodes,
          sub := { (bfsFinal g S k).sub with
            edgeNodeIndex := buildEdgeNodeIndex (bfsFinal g S k).sub,
            numberOfNodes := (bfsFinal g S k).nodeCount,
            numberOfEdges := (bfsFinal g S k).edgeCount } } := by
  unfold generateSubGraph Graph.resetDistanceRun bfsFinal bfsStart
  dsimp only
  rw [hS]

/-- The full characterization of a `generateSubGraph` call on a well-formed
parent whose traversal distances are all `Infinity` and whose seed is a node:
the call succeeds; the child's node set is exactly the ball of hop-radius
`numHops` around the seed; the child's edge set is exactly the parent edges
found between an accepted node and one of its adjacency-set members; and the
child's id→index and index→id maps enumerate exactly `0..n-1` / `0..m-1` in
BFS order. -/
theorem generateSubGraph_spec (g : Graph) (S : String) (k : Nat)
    (hwf : WfStore g.nodes)
    (hinf : ∀ kv ∈ g.nodes, kv.2.distance = none)
    (hS : (alookup g.nodes S).isSome) :
    ∃ r : SubGraphResult, generateSubGraph g (some S) k = Except.ok r ∧
      (∀ v, v ∈ r.sub.nodes.map Prod.fst ↔
        ∃ n, n ≤ k ∧ Reach (adjOf g.nodes) S v n) ∧
      (∀ eid, eid ∈ r.sub.edges.map Prod.fst ↔
        ∃ u, u ∈ r.sub.nodes.map Prod.fst ∧ ∃ w, w ∈ adjOf g.nodes u ∧
          ∃ e, getEdgeIDFromNodes g.edges u w = some e ∧ e.id = eid) ∧
      r.sub.nodeIndexMap =
        (r.sub.nodes.map Prod.fst).zip (List.range r.sub.numberOfNodes) ∧
      r.sub.nodeMap =
        (List.range r.sub.numberOfNodes).zip (r.sub.nodes.map Prod.fst) ∧
      r.sub.numberOfNodes = (r.sub.nodes.map Prod.fst).length ∧
      (r.sub.nodes.map Prod.fst).Nodup ∧
      r.sub.edgeIndexMap =
        (r.sub.edges.map Prod.fst).zip (List.range r.sub.numberOfEdges) ∧
      r.sub.edgeIDMap =
        (List.range r.sub.numberOfEdges).zip (r.sub.edges.map Prod.fst) ∧
      r.sub.numberOfEdges = (r.sub.edges.map Prod.fst).length ∧
      (r.sub.edges.map Prod.fst).Nodup := by
  obtain ⟨nS, hnS⟩ := Option.isSome_iff_exists.1 hS
  have hDg : ∀ v, distOf g.nodes v = none := by
    intro v
    cases hl : alookup g.nodes v with
    | none => rw [distOf, hl]; rfl
    | some nv =>
      rw [distOf, hl]
      exact hinf (v, nv) (alookup_mem g.nodes v nv hl)
  have hD0 : ∀ v, distOf (setDistance g.nodes S (some 0)) v =
      if v = S then some 0 else none := by
    intro v
    rw [distOf_setDistance]
    by_cases h : v = S
    · simp [h, hS]
    · simp [h, hDg v]
  have hinv0 : BfsInv g.nodes g.edges S k (bfsStart g S) [] [] := by
    refine
      { shape := sameShape_setDistance _ _ _ _ (sameShape_refl g.nodes),
        nodupP := List.nodup_nil, nodupQ := List.nodup_singleton _,
        disjPQ := by intro v hv; simp at hv,
        labelIff := ?_, labelSound := ?_, labelMin := ?_,
        qSorted := List.pairwise_singleton _ _,
        pLe := by intro v hv; simp at hv,
        sMem := Or.inr (List.mem_singleton.2 rfl),
        subNim := rfl, subNm := rfl, subNodesKeys := rfl, nodeCountEq := rfl,
        subEim := rfl, subEidm := rfl, subEdgesKeys := rfl,
        edgeCountEq := rfl, nodupE := List.nodup_nil,
        qSpread := ?_, pClosed := by intro v hv; simp at hv,
        edgeChar := ?_ }
    · intro v
      show (∃ d, distOf (setDistance g.nodes S (some 0)) v = some d) ↔
        v ∈ ([] : List String) ∨ v ∈ [S]
      rw [hD0 v]
      by_cases h : v = S
      · simp [h]
      · simp [h]
    · intro v d hv
      show Reach (adjOf g.nodes) S v d
      replace hv : distOf (setDistance g.nodes S (some 0)) v = some d := hv
      rw [hD0 v] at hv
      by_cases h : v = S
      · rw [if_pos h] at hv
        cases hv
        subst h
        exact Reach.zero
      · rw [if_neg h] at hv
        exact Option.noConfusion hv
    · intro v d m hv _
      replace hv : distOf (setDistance g.nodes S (some 0)) v = some d := hv
      rw [hD0 v] at hv
      by_cases h : v = S
      · rw [if_pos h] at hv
        cases hv
        exact Nat.zero_le m
      · rw [if_neg h] at hv
        exact Option.noConfusion hv
    · intro a ha b hb
      replace ha : a ∈ [S] := ha
      replace hb : b ∈ [S] := hb
      rw [List.mem_singleton] at ha hb
      subst ha
      subst hb
      omega
    · intro eid
      constructor
      · intro h; simp at h
      · rintro ⟨u, hu, _⟩; simp at hu
  have hfuel : (bfsStart g S).queue.length +
      countInf (bfsStart g S).nodes ≤
      (setDistance g.nodes S (some 0)).length + 1 := by
    have h1 := countInf_le_length (setDistance g.nodes S (some 0))
    show ([S] : List String).length +
      countInf (setDistance g.nodes S (some 0)) ≤ _
    simp only [List.length_singleton]
    omega
  obtain ⟨P', E', hinvF, hpers, hfin⟩ :=
    bfsLoop_spec g.nodes g.edges S k hwf
      ((setDistance g.nodes S (some 0)).length + 1) (bfsStart g S) [] []
      hinv0 hfuel
  rw [show bfsLoop g.edges k ((setDistance g.nodes S (some 0)).length + 1)
    (bfsStart g S) = bfsFinal g S k from rfl] at hinvF hpers hfin
  have hS0 : distOf (bfsStart g S).nodes S = some 0 := by
    show distOf (setDistance g.nodes S (some 0)) S = some 0
    rw [hD0 S, if_pos rfl]
  have hSF : distOf (bfsFinal g S k).nodes S = some 0 := hpers S 0 hS0
  have hSP : S ∈ P' := by
    rcases (hinvF.toInvCore.labelIff S).1 ⟨0, hSF⟩ with h | h
    · exact h
    · exact absurd (hfin S h 0 hSF) (Nat.not_lt.2 (Nat.zero_le k))
  have hball : ∀ v, v ∈ P' ↔ ∃ n, n ≤ k ∧ Reach (adjOf g.nodes) S v n := by
    intro v
    constructor
    · intro hv
      obtain ⟨d, hd⟩ := (hinvF.toInvCore.labelIff v).2 (Or.inl hv)
      refine ⟨d, ?_, hinvF.toInvCore.labelSound v d hd⟩
      have := hinvF.toInvCore.pLe v hv
      rw [labelD_of_some _ _ _ hd] at this
      exact this
    · rintro ⟨n, hn, hr⟩
      have hlab : ∃ d, distOf (bfsFinal g S k).nodes v = some d := by
        by_contra hnl
        obtain ⟨x, y, m1, hx, hy, hyx, hrx, hle⟩ :=
          path_entry (adjOf g.nodes) S
            (fun z => ∃ d, distOf (bfsFinal g S k).nodes z = some d)
            ⟨0, hSF⟩ v n hr hnl
        obtain ⟨dx, hdx⟩ := hx
        rcases (hinvF.toInvCore.labelIff x).1 ⟨dx, hdx⟩ with hxP | hxQ
        · exact hy (hinvF.pClosed x hxP y hyx)
        · have h1 := hfin x hxQ dx hdx
          have h2 := hinvF.toInvCore.labelMin x dx m1 hdx hrx
          omega
      obtain ⟨d, hd⟩ := hlab
      rcases (hinvF.toInvCore.labelIff v).1 ⟨d, hd⟩ with h | h
      · exact h
      · have h1 := hfin v h d hd
        have h2 := hinvF.toInvCore.labelMin v d n hd hr
        omega
  have hkeys : (bfsFinal g S k).sub.nodes.map Prod.fst = P' :=
    hinvF.toInvCore.subNodesKeys
  have hekeys : (bfsFinal g S k).sub.edges.map Prod.fst = E' :=
    hinvF.toInvCore.subEdgesKeys
  refine ⟨_, generateSubGraph_eq g S k nS hnS, ?_, ?_, ?_, ?_, ?_, ?_, ?_,
    ?_, ?_, ?_⟩
  · intro v
    show v ∈ (bfsFinal g S k).sub.nodes.map Prod.fst ↔ _
    rw [hkeys]
    exact hball v
  · intro eid
    show eid ∈ (bfsFinal g S k).sub.edges.map Prod.fst ↔ _
    show _ ↔ ∃ u, u ∈ (bfsFinal g S k).sub.nodes.map Prod.fst ∧ _
    rw [hekeys, hinvF.edgeChar eid, hkeys]
  · show (bfsFinal g S k).sub.nodeIndexMap =
      ((bfsFinal g S k).sub.nodes.map Prod.fst).zip
        (List.range (bfsFinal g S k).nodeCount)
    rw [hkeys, hinvF.toInvCore.nodeCountEq]
    exact hinvF.toInvCore.subNim
  · show (bfsFinal g S k).sub.nodeMap =
      (List.range (bfsFinal g S k).nodeCount).zip
        ((bfsFinal g S k).sub.nodes.map Prod.fst)
    rw [hkeys, hinvF.toInvCore.nodeCountEq]
    exact hinvF.toInvCore.subNm
  · show (bfsFinal g S k).nodeCount =
      ((bfsFinal g S k).sub.nodes.map Prod.fst).length
    rw [hkeys]
    exact hinvF.toInvCore.nodeCountEq
  · show ((bfsFinal g S k).sub.nodes.map Prod.fst).Nodup
    rw [hkeys]
    exact hinvF.toInvCore.nodupP
  · show (bfsFinal g S k).sub.edgeIndexMap =
      ((bfsFinal g S k).sub.edges.map Prod.fst).zip
        (List.range (bfsFinal g S k).edgeCount)
    rw [hekeys, hinvF.toInvCore.edgeCountEq]
    exact hinvF.toInvCore.subEim
  · show (bfsFinal g S k).sub.edgeIDMap =
      (List.range (bfsFinal g S k).edgeCount).zip
        ((bfsFinal g S k).sub.edges.map Prod.fst)
    rw [hekeys, hinvF.toInvCore.edgeCountEq]
    exact hinvF.toInvCore.subEidm
  · show (bfsFinal g S k).edgeCount =
      ((bfsFinal g S k).sub.edges.map Prod.fst).length
    rw [hekeys]
    exact hinvF.toInvCore.edgeCountEq
  · show ((bfsFinal g S k).sub.edges.map Prod.fst).Nodup
    rw [hekeys]
    exact hinvF.toInvCore.nodupE

/-!
## Claim-level lemmas
-/

theorem foldl_addNode_inv (l : List GraphNode) :
    ∀ g : Graph,
      g.numberOfNodes = (g.nodes.map Prod.fst).length →
      (g.nodes.map Prod.fst).Nodup →
      (l.foldl Graph.addNode g).numberOfNodes =
        ((l.foldl Graph.addNode g).nodes.map Prod.fst).length ∧
      ((l.foldl Graph.addNode g).nodes.map Prod.fst).Nodup ∧
      (∀ x, x ∈ (l.foldl Graph.addNode g).nodes.map Prod.fst ↔
        x ∈ g.nodes.map Prod.fst ∨ x ∈ l.map GraphNode.id) := by
  induction l with
  | nil =>
    intro g hc hn
    exact ⟨hc, hn, fun x => by simp⟩
  | cons node rest ih =>
    intro g hc hn
    by_cases hmem : (alookup g.nodes node.id).isSome
    · have hg : g.addNode node = g := by
        unfold Graph.addNode
        rw [if_pos hmem]
      rw [List.foldl_cons, hg]
      obtain ⟨h1, h2, h3⟩ := ih g hc hn
      refine ⟨h1, h2, fun x => ?_⟩
      rw [h3 x]
      have hid : node.id ∈ g.nodes.map Prod.fst :=
        (alookup_isSome_iff g.nodes node.id).1 hmem
      simp only [List.map_cons, List.mem_cons]
      constructor
      · rintro (h | h)
        · exact Or.inl h
        · exact Or.inr (Or.inr h)
      · rintro (h | h | h)
        · exact Or.inl h
        · exact Or.inl (h ▸ hid)
        · exact Or.inr h
    · have hid : node.id ∉ g.nodes.map Prod.fst := fun h =>
        hmem ((alookup_isSome_iff g.nodes node.id).2 h)
      have hkeys : (g.addNode node).nodes.map Prod.fst =
          g.nodes.map Prod.fst ++ [node.id] := by
        unfold Graph.addNode
        rw [if_neg hmem]
        simp
      have hcount : (g.addNode node).numberOfNodes = g.numberOfNodes + 1 := by
        unfold Graph.addNode
        rw [if_neg hmem]
      have hc' : (g.addNode node).numberOfNodes =
          ((g.addNode node).nodes.map Prod.fst).length := by
        rw [hcount, hkeys, hc]
        simp
      have hn' : ((g.addNode node).nodes.map Prod.fst).Nodup := by
        rw [hkeys]
        refine List.nodup_append.2 ⟨hn, List.nodup_singleton _, ?_⟩
        intro x hx hx2
        simp only [List.mem_singleton] at hx2
        exact hid (hx2 ▸ hx)
      rw [List.foldl_cons]
      obtain ⟨h1, h2, h3⟩ := ih (g.addNode node) hc' hn'
      refine ⟨h1, h2, fun x => ?_⟩
      rw [h3 x, hkeys]
      simp only [List.mem_append, List.mem_singleton, List.map_cons,
        List.mem_cons]
      tauto

/-- `numberOfNodes` after a sequence of `addNode` calls on a fresh graph is
the number of distinct ids in the sequence; and adding a node whose id is
already present changes nothing at all. -/
theorem c8_addNode_count (l : List GraphNode) (g : Graph) (node : GraphNode)
    (hmem : (alookup g.nodes node.id).isSome) :
    (l.foldl Graph.addNode Graph.make).numberOfNodes =
      (l.map GraphNode.id).dedup.length ∧
    Graph.addNode g node = g := by
  constructor
  · obtain ⟨h1, h2, h3⟩ := foldl_addNode_inv l Graph.make rfl List.nodup_nil
    have hset : ((l.foldl Graph.addNode Graph.make).nodes.map
        Prod.fst).toFinset = (l.map GraphNode.id).toFinset := by
      ext x
      rw [List.mem_toFinset, List.mem_toFinset, h3 x]
      show x ∈ ([] : List (String × GraphNode)).map Prod.fst ∨ _ ↔ _
      simp
    rw [h1, ← List.toFinset_card_of_nodup h2, hset, List.card_toFinset]
  · unfold Graph.addNode
    rw [if_pos hmem]

/-- a one-node graph used to witness the duplicate-id no-op -/
def c8graph : Graph := Graph.addNode Graph.make (GraphNode.make "a" none)

theorem c8_addNode_count_witness :
    (([GraphNode.make "a" (some "driver"), GraphNode.make "b" none,
        GraphNode.make "a" (some "rider")].foldl Graph.addNode
        Graph.make).numberOfNodes =
      ([GraphNode.make "a" (some "driver"), GraphNode.make "b" none,
        GraphNode.make "a" (some "rider")].map GraphNode.id).dedup.length) ∧
    Graph.addNode c8graph (GraphNode.make "a" (some "rider")) = c8graph :=
  c8_addNode_count _ c8graph (GraphNode.make "a" (some "rider")) (by decide)

theorem stepAnneal_edgePosition {α : Type} (M : NumModel α)
    (s : LayoutState α) : (stepAnneal M s).edgePosition = s.edgePosition := by
  unfold stepAnneal
  split <;> rfl

theorem calculateAcceleration_edgePosition {α : Type} (M : NumModel α)
    (s : LayoutState α) :
    (calculateAcceleration M s).edgePosition = s.edgePosition := rfl

theorem stepIntegrate_edgePosition {α : Type} (M : NumModel α)
    (s : LayoutState α) :
    (stepIntegrate M s).edgePosition = s.edgePosition := rfl

theorem step_edgePosition {α : Type} (M : NumModel α) (s : LayoutState α) :
    (step M s).edgePosition = s.edgePosition := by
  unfold step
  rw [stepIntegrate_edgePosition, calculateAcceleration_edgePosition,
    stepAnneal_edgePosition]

/-- C10: the layout's own `numberOfEdges` is never assigned (undefined), so
`new Array(this.numberOfEdges)` allocates the one-slot array `[undefined]`;
`step` never writes `edgePosition`, so `getEdgePosition` returns that same
length-1 array after any number of steps. -/
theorem c10_edgePosition_static {α : Type} (M : NumModel α)
    (numberOfNodes : Nat) (nodeMapResolved : List (Nat × GraphNode))
    (eni : List Nat) (dof : Nat) (prand : Nat → Nat → α) (vrand : Nat → α)
    (steps : Nat) :
    (mkLayout M numberOfNodes nodeMapResolved eni dof prand
      vrand).numberOfEdgesField = none ∧
    getEdgePosition ((step M)^[steps]
        (mkLayout M numberOfNodes nodeMapResolved eni dof prand vrand)) =
      (mkLayout M numberOfNodes nodeMapResolved eni dof prand
        vrand).edgePosition ∧
    (mkLayout M numberOfNodes nodeMapResolved eni dof prand
      vrand).edgePosition.length = 1 := by
  refine ⟨rfl, ?_, rfl⟩
  show ((step M)^[steps] _).edgePosition = _
  induction steps with
  | zero => rfl
  | succ n ih =>
    rw [Function.iterate_succ_apply', step_edgePosition]
    exact ih

theorem foldl_add_eq_sum (f : Nat → ℚ) (N : Nat) :
    (List.range N).foldl (fun acc i => acc + f i) 0 =
      ∑ i in Finset.range N, f i := by
  induction N with
  | zero => simp
  | succ n ih =>
    rw [List.range_succ, List.foldl_append, ih, Finset.sum_range_succ]
    rfl

theorem step_eq_phases {α : Type} (M : NumModel α) (s : LayoutState α) :
    step M s = stepIntegrate M (calculateAcceleration M (stepAnneal M s)) :=
  rfl

theorem calculateAcceleration_numberOfNodes {α : Type} (M : NumModel α)
    (s : LayoutState α) :
    (calculateAcceleration M s).numberOfNodes = s.numberOfNodes := rfl

theorem calculateAcceleration_dof {α : Type} (M : NumModel α)
    (s : LayoutState α) : (calculateAcceleration M s).dof = s.dof := rfl

theorem stepAnneal_numberOfNodes {α : Type} (M : NumModel α)
    (s : LayoutState α) :
    (stepAnneal M s).numberOfNodes = s.numberOfNodes := by
  unfold stepAnneal
  split <;> rfl

theorem stepAnneal_dof {α : Type} (M : NumModel α) (s : LayoutState α) :
    (stepAnneal M s).dof = s.dof := by
  unfold stepAnneal
  split <;> rfl

theorem stepIntegrate_position {α : Type} (M : NumModel α)
    (s1 : LayoutState α) (i d : Nat) (hi : i < s1.numberOfNodes)
    (hd : d < s1.dof) :
    (stepIntegrate M s1).position i d =
      M.sub (M.add (s1.position i d) (s1.velocity (i * s1.dof + d)))
        (M.div ((List.range s1.numberOfNodes).foldl
          (fun acc j => M.add acc
            (M.add (s1.position j d) (s1.velocity (j * s1.dof + d))))
          (M.ofRat 0)) (M.ofRat s1.numberOfNodes)) := by
  unfold stepIntegrate
  dsimp only
  rw [if_pos ⟨hi, hd⟩]

/-- C5: over exact arithmetic, one `step` leaves every in-range axis with a
zero position sum — the centroid subtraction cancels the sum exactly,
whatever the forces and velocities did. -/
theorem c5_mean_zero (sq : ℚ → ℚ) (s : LayoutState ℚ) (d : Nat)
    (hN : 1 ≤ s.numberOfNodes) (hd : d < s.dof) :
    ∑ i in Finset.range s.numberOfNodes, (step (ratM sq) s).position i d
      = 0 := by
  have hN1 : (calculateAcceleration (ratM sq)
      (stepAnneal (ratM sq) s)).numberOfNodes = s.numberOfNodes := by
    rw [calculateAcceleration_numberOfNodes, stepAnneal_numberOfNodes]
  have hd1 : (calculateAcceleration (ratM sq)
      (stepAnneal (ratM sq) s)).dof = s.dof := by
    rw [calculateAcceleration_dof, stepAnneal_dof]
  set s1 := calculateAcceleration (ratM sq) (stepAnneal (ratM sq) s) with hs1
  have hpos : ∀ i, i < s.numberOfNodes →
      (step (ratM sq) s).position i d =
        (s1.position i d + s1.velocity (i * s1.dof + d)) -
          ((List.range s1.numberOfNodes).foldl
            (fun acc j =>
              acc + (s1.position j d + s1.velocity (j * s1.dof + d))) 0) /
            (s1.numberOfNodes : ℚ) := by
    intro i hi
    rw [step_eq_phases, ← hs1,
      stepIntegrate_position (ratM sq) s1 i d (by rw [hN1]; exact hi)
        (by rw [hd1]; exact hd)]
    rfl
  have hsum := foldl_add_eq_sum
    (fun j => s1.position j d + s1.velocity (j * s1.dof + d))
    s1.numberOfNodes
  have hN0 : (s.numberOfNodes : ℚ) ≠ 0 := Nat.cast_ne_zero.mpr (by omega)
  calc ∑ i in Finset.range s.numberOfNodes, (step (ratM sq) s).position i d
      = ∑ i in Finset.range s.numberOfNodes,
          ((s1.position i d + s1.velocity (i * s1.dof + d)) -
            (∑ j in Finset.range s.numberOfNodes,
              (s1.position j d + s1.velocity (j * s1.dof + d))) /
              (s.numberOfNodes : ℚ)) := by
        refine Finset.sum_congr rfl (fun i hi => ?_)
        rw [hpos i (Finset.mem_range.1 hi), hsum, hN1]
    _ = (∑ i in Finset.range s.numberOfNodes,
          (s1.position i d + s1.velocity (i * s1.dof + d))) -
        (s.numberOfNodes : ℚ) *
          ((∑ j in Finset.range s.numberOfNodes,
            (s1.position j d + s1.velocity (j * s1.dof + d))) /
            (s.numberOfNodes : ℚ)) := by
        rw [Finset.sum_sub_distrib, Finset.sum_const, Finset.card_range,
          nsmul_eq_mul]
    _ = 0 := by
        rw [mul_comm, div_mul_cancel₀ _ hN0, sub_self]

/-- a concrete layout state witnessing the centering theorem -/
def c5state : LayoutState ℚ :=
  { numberOfNodes := 2, dof := 2, dt := 10, currentStep := 0,
    position := fun i d => (i : ℚ) + d, velocity := fun p => p,
    acceleration := fun _ => 0, distanceBuf := fun _ => 0,
    directionBuf := fun _ => 0, ymean := fun _ => 0,
    mass := fun _ => 1/10, size := fun _ => 3/10,
    edgeNodeIndex := [0, 1], edgePosition := jsNewArray none,
    numberOfEdgesField := none }

theorem c5_mean_zero_witness :
    ∑ i in Finset.range c5state.numberOfNodes,
      (step (ratM id) c5state).position i 0 = 0 :=
  c5_mean_zero id c5state 0 (by decide) (by decide)

/-!
## Concrete graphs for the counterexamples and witnesses
-/

/-- path graph A — B — C (A tagged driver, B and C riders) -/
def g1 : Graph :=
  ((((Graph.make.addNode
    ((GraphNode.make "A" (some "driver")).addAdjacentNode "B")).addNode
    (((GraphNode.make "B" (some "rider")).addAdjacentNode "A").addAdjacentNode
      "C")).addNode
    ((GraphNode.make "C" (some "rider")).addAdjacentNode "B")).addEdge
    (GraphEdge.make "A_B" "A" "B" none)).addEdge
    (GraphEdge.make "B_C" "B" "C" none)

def c1run : SubGraphResult :=
  match generateSubGraph g1 (some "A") 1 with
  | Except.ok r => r
  | Except.error _ => { parentNodes := [], sub := SubGraph.empty }

/-- C1 counterexample: on the path A—B—C with numHops 1 and all distances
fresh, the result contains the edge B_C although C is not in the result's
node set, contradicting "the edge set is exactly the parent edges with both
endpoints in that node set". -/
theorem c1_counterexample :
    (∀ kv ∈ g1.nodes, kv.2.distance = none) ∧
    (generateSubGraph g1 (some "A") 1).toOption = some c1run ∧
    "B_C" ∈ c1run.sub.edges.map Prod.fst ∧
    "C" ∉ c1run.sub.nodes.map Prod.fst := by decide

/-- C1 (amended): with all distances `Infinity` before the call, a seed that
is a node of the graph, and adjacency references that are nodes of the graph,
the node set is exactly the radius-`numHops` hop ball around the seed, and
the edge set is exactly the parent edges joining an accepted node to one of
its adjacency-set members (one hop past the cutoff included). -/
theorem c1_amended (g : Graph) (S : String) (k : Nat)
    (hwf : WfStore g.nodes)
    (hinf : ∀ kv ∈ g.nodes, kv.2.distance = none)
    (hS : (alookup g.nodes S).isSome) :
    ∃ r : SubGraphResult, generateSubGraph g (some S) k = Except.ok r ∧
      (∀ v, v ∈ r.sub.nodes.map Prod.fst ↔
        ∃ n, n ≤ k ∧ Reach (adjOf g.nodes) S v n) ∧
      (∀ eid, eid ∈ r.sub.edges.map Prod.fst ↔
        ∃ u, u ∈ r.sub.nodes.map Prod.fst ∧ ∃ w, w ∈ adjOf g.nodes u ∧
          ∃ e, getEdgeIDFromNodes g.edges u w = some e ∧ e.id = eid) := by
  obtain ⟨r, h1, h2, h3, _⟩ := generateSubGraph_spec g S k hwf hinf hS
  exact ⟨r, h1, h2, h3⟩

theorem c1_amended_witness :
    ∃ r : SubGraphResult, generateSubGraph g1 (some "A") 1 = Except.ok r ∧
      (∀ v, v ∈ r.sub.nodes.map Prod.fst ↔
        ∃ n, n ≤ 1 ∧ Reach (adjOf g1.nodes) "A" v n) ∧
      (∀ eid, eid ∈ r.sub.edges.map Prod.fst ↔
        ∃ u, u ∈ r.sub.nodes.map Prod.fst ∧ ∃ w, w ∈ adjOf g1.nodes u ∧
          ∃ e, getEdgeIDFromNodes g1.edges u w = some e ∧ e.id = eid) :=
  c1_amended g1 "A" 1 (by decide) (by decide) (by decide)

theorem reach_zero_eq (adj : String → List String) (s v : String)
    (h : Reach adj s v 0) : v = s := by
  cases h
  rfl

theorem nodup_mem_singleton (l : List String) (S : String) (hn : l.Nodup)
    (h : ∀ v, v ∈ l ↔ v = S) : l = [S] := by
  cases l with
  | nil => exact absurd ((h S).2 rfl) (List.not_mem_nil S)
  | cons a t =>
    have ha : a = S := (h a).1 (List.mem_cons_self a t)
    subst ha
    cases t with
    | nil => rfl
    | cons b t2 =>
      have hb : b = a :=
        (h b).1 (List.mem_cons_of_mem _ (List.mem_cons_self b t2))
      have := (List.nodup_cons.1 hn).1
      exact absurd (hb ▸ List.mem_cons_self b t2) this

/-- two-node graph A — B -/
def g2 : Graph :=
  ((Graph.make.addNode
    ((GraphNode.make "A" (some "driver")).addAdjacentNode "B")).addNode
    ((GraphNode.make "B" (some "rider")).addAdjacentNode "A")).addEdge
    (GraphEdge.make "A_B" "A" "B" none)

def c2run : SubGraphResult :=
  match generateSubGraph g2 (some "A") 0 with
  | Except.ok r => r
  | Except.error _ => { parentNodes := [], sub := SubGraph.empty }

/-- C2 counterexample: with numHops 0 from seed A in the fresh two-node graph
A—B, the node set is exactly {A} but the edge count is 1, not 0 — the edge
A_B is recorded while A's adjacency is scanned. -/
theorem c2_counterexample :
    (∀ kv ∈ g2.nodes, kv.2.distance = none) ∧
    (generateSubGraph g2 (some "A") 0).toOption = some c2run ∧
    c2run.sub.nodes.map Prod.fst = ["A"] ∧
    c2run.sub.numberOfEdges = 1 ∧
    c2run.sub.edges.map Prod.fst = ["A_B"] := by decide

/-- C2 (amended): with numHops 0 the node set is exactly the seed, and the
edge set is exactly the parent edges found from the seed to one of its
adjacency-set members; the edge count is the number of such edges (the
child's edge-id list has no duplicates and `numberOfEdges` is its length),
and it is zero exactly when no adjacency member of the seed has an edge. -/
theorem c2_amended (g : Graph) (S : String)
    (hwf : WfStore g.nodes)
    (hinf : ∀ kv ∈ g.nodes, kv.2.distance = none)
    (hS : (alookup g.nodes S).isSome) :
    ∃ r : SubGraphResult, generateSubGraph g (some S) 0 = Except.ok r ∧
      r.sub.nodes.map Prod.fst = [S] ∧
      r.sub.numberOfNodes = 1 ∧
      (∀ eid, eid ∈ r.sub.edges.map Prod.fst ↔
        ∃ w, w ∈ adjOf g.nodes S ∧
          ∃ e, getEdgeIDFromNodes g.edges S w = some e ∧ e.id = eid) ∧
      r.sub.numberOfEdges = (r.sub.edges.map Prod.fst).length ∧
      (r.sub.edges.map Prod.fst).Nodup ∧
      (r.sub.numberOfEdges = 0 ↔
        ∀ w ∈ adjOf g.nodes S, getEdgeIDFromNodes g.edges S w = none) := by
  obtain ⟨r, h1, h2, h3, _, _, h6, h7, _, _, h10, h11⟩ :=
    generateSubGraph_spec g S 0 hwf hinf hS
  have hmem : ∀ v, v ∈ r.sub.nodes.map Prod.fst ↔ v = S := by
    intro v
    rw [h2 v]
    constructor
    · rintro ⟨n, hn, hr⟩
      have : n = 0 := Nat.le_zero.1 hn
      subst this
      exact reach_zero_eq _ _ _ hr
    · rintro rfl
      exact ⟨0, le_refl 0, Reach.zero⟩
  have hl : r.sub.nodes.map Prod.fst = [S] := nodup_mem_singleton _ S h7 hmem
  have hedge : ∀ eid, eid ∈ r.sub.edges.map Prod.fst ↔
      ∃ w, w ∈ adjOf g.nodes S ∧
        ∃ e, getEdgeIDFromNodes g.edges S w = some e ∧ e.id = eid := by
    intro eid
    rw [h3 eid]
    constructor
    · rintro ⟨u, hu, w, hw, he⟩
      rw [hl, List.mem_singleton] at hu
      subst hu
      exact ⟨w, hw, he⟩
    · rintro ⟨w, hw, he⟩
      exact ⟨S, by rw [hl]; exact List.mem_singleton.2 rfl, w, hw, he⟩
  refine ⟨r, h1, hl, ?_, hedge, h10, h11, ?_⟩
  · rw [h6, hl]
    rfl
  · rw [h10]
    constructor
    · intro h0 w hw
      cases hfe : getEdgeIDFromNodes g.edges S w with
      | none => rfl
      | some e =>
        have hin : e.id ∈ r.sub.edges.map Prod.fst :=
          (hedge e.id).2 ⟨w, hw, e, hfe, rfl⟩
        rw [List.length_eq_zero.1 h0] at hin
        exact absurd hin (List.not_mem_nil _)
    · intro hall
      cases hl2 : r.sub.edges.map Prod.fst with
      | nil => rfl
      | cons a t =>
        have ha : a ∈ r.sub.edges.map Prod.fst := by
          rw [hl2]
          exact List.mem_cons_self a t
        obtain ⟨w, hw, e, hfe, _⟩ := (hedge a).1 ha
        rw [hall w hw] at hfe
        exact Option.noConfusion hfe

theorem c2_amended_witness :
    ∃ r : SubGraphResult, generateSubGraph g2 (some "A") 0 = Except.ok r ∧
      r.sub.nodes.map Prod.fst = ["A"] ∧
      r.sub.numberOfNodes = 1 ∧
      (∀ eid, eid ∈ r.sub.edges.map Prod.fst ↔
        ∃ w, w ∈ adjOf g2.nodes "A" ∧
          ∃ e, getEdgeIDFromNodes g2.edges "A" w = some e ∧ e.id = eid) ∧
      r.sub.numberOfEdges = (r.sub.edges.map Prod.fst).length ∧
      (r.sub.edges.map Prod.fst).Nodup ∧
      (r.sub.numberOfEdges = 0 ↔
        ∀ w ∈ adjOf g2.nodes "A", getEdgeIDFromNodes g2.edges "A" w = none) :=
  c2_amended g2 "A" (by decide) (by decide) (by decide)

/-- C9: the child's id→index map carries exactly the indices `0..n-1` with no
gaps or repeats, assigned to the accepted node ids in BFS dequeue order (the
key order of the child's node map), and likewise `0..m-1` for the edge maps. -/
theorem c9_index_maps (g : Graph) (S : String) (k : Nat)
    (hwf : WfStore g.nodes)
    (hinf : ∀ kv ∈ g.nodes, kv.2.distance = none)
    (hS : (alookup g.nodes S).isSome) :
    ∃ r : SubGraphResult, generateSubGraph g (some S) k = Except.ok r ∧
      r.sub.nodeIndexMap =
        (r.sub.nodes.map Prod.fst).zip (List.range r.sub.numberOfNodes) ∧
      r.sub.nodeIndexMap.map Prod.snd = List.range r.sub.numberOfNodes ∧
      (r.sub.nodeIndexMap.map Prod.fst).Nodup ∧
      r.sub.nodeMap =
        (List.range r.sub.numberOfNodes).zip (r.sub.nodes.map Prod.fst) ∧
      r.sub.edgeIndexMap =
        (r.sub.edges.map Prod.fst).zip (List.range r.sub.numberOfEdges) ∧
      r.sub.edgeIndexMap.map Prod.snd = List.range r.sub.numberOfEdges ∧
      (r.sub.edgeIndexMap.map Prod.fst).Nodup ∧
      r.sub.edgeIDMap =
        (List.range r.sub.numberOfEdges).zip (r.sub.edges.map Prod.fst) := by
  obtain ⟨r, h1, _, _, h4, h5, h6, h7, h8, h9, h10, h11⟩ :=
    generateSubGraph_spec g S k hwf hinf hS
  refine ⟨r, h1, h4, ?_, ?_, h5, h8, ?_, ?_, h9⟩
  · rw [h4]
    exact List.map_snd_zip _ _ (by rw [h6]; simp)
  · rw [h4]
    rw [List.map_fst_zip _ _ (by rw [h6]; simp)]
    exact h7
  · rw [h8]
    exact List.map_snd_zip _ _ (by rw [h10]; simp)
  · rw [h8]
    rw [List.map_fst_zip _ _ (by rw [h10]; simp)]
    exact h11

theorem c9_index_maps_witness :
    ∃ r : SubGraphResult, generateSubGraph g1 (some "A") 2 = Except.ok r ∧
      r.sub.nodeIndexMap =
        (r.sub.nodes.map Prod.fst).zip (List.range r.sub.numberOfNodes) ∧
      r.sub.nodeIndexMap.map Prod.snd = List.range r.sub.numberOfNodes ∧
      (r.sub.nodeIndexMap.map Prod.fst).Nodup ∧
      r.sub.nodeMap =
        (List.range r.sub.numberOfNodes).zip (r.sub.nodes.map Prod.fst) ∧
      r.sub.edgeIndexMap =
        (r.sub.edges.map Prod.fst).zip (List.range r.sub.numberOfEdges) ∧
      r.sub.edgeIndexMap.map Prod.snd = List.range r.sub.numberOfEdges ∧
      (r.sub.edgeIndexMap.map Prod.fst).Nodup ∧
      r.sub.edgeIDMap =
        (List.range r.sub.numberOfEdges).zip (r.sub.edges.map Prod.fst) :=
  c9_index_maps g1 "A" 2 (by decide) (by decide) (by decide)

/-- two-node graph A — B in which B carries a stale finite traversal
distance, as it does after any earlier `generateSubGraph` call -/
def g4 : Graph :=
  ((Graph.make.addNode
    ((GraphNode.make "A" (some "driver")).addAdjacentNode "B")).addNode
    { ((GraphNode.make "B" (some "rider")).addAdjacentNode "A") with
      distance := some 5 }).addEdge
    (GraphEdge.make "A_B" "A" "B" none)

def c4run : SubGraphResult :=
  match generateSubGraph g4 (some "A") 3 with
  | Except.ok r => r
  | Except.error _ => { parentNodes := [], sub := SubGraph.empty }

/-- C4 (code behaviour at the failing input): `_resetDistance` leaves the
store untouched, so a stale finite distance survives into the breadth-first
expansion — B keeps distance 5 through the whole call and is never accepted,
although it is adjacent to the seed and the claim's reset-to-Infinity
description would include it. -/
theorem c4_reset_never_runs :
    Graph.resetDistanceRun g4 = g4 ∧
    distOf g4.nodes "B" = some 5 ∧
    (generateSubGraph g4 (some "A") 3).toOption = some c4run ∧
    distOf c4run.parentNodes "B" = some 5 ∧
    c4run.sub.nodes.map Prod.fst = ["A"] ∧
    c4run.sub.edges.map Prod.fst = ["A_B"] := by decide

/-- a degree-2 node tagged with the device category -/
def deviceNode : GraphNode :=
  ((GraphNode.make "D" (some "device")).addAdjacentNode
    "x").addAdjacentNode "y"

/-- C6 (code behaviour at the failing input): the mass computed at layout
construction for a degree-2 device-tagged node is 2/10 = 1/5, not
degree×2 = 4 — the source compares `node.type`, a property the constructor
never assigns, so the device branch is unreachable. -/
theorem c6_mass_ignores_category :
    deviceNode.attrType = some "device" ∧
    deviceNode.degree = 2 ∧
    deviceNode.directType = none ∧
    (mkLayout (ratM id) 1 [(0, deviceNode)] [] 3 (fun _ _ => 0)
      (fun _ => 0)).mass 0 = 1/5 ∧
    ¬ (mkLayout (ratM id) 1 [(0, deviceNode)] [] 3 (fun _ _ => 0)
      (fun _ => 0)).mass 0 = 2 * 2 := by decide

/-- a two-node layout state with both nodes at the origin (coincident) -/
def s7 : LayoutState JsNum :=
  { numberOfNodes := 2, dof := 3, dt := JsNum.fin 10, currentStep := 0,
    position := fun _ _ => JsNum.fin 0, velocity := fun _ => JsNum.fin 0,
    acceleration := fun _ => JsNum.fin 0, distanceBuf := fun _ => JsNum.fin 0,
    directionBuf := fun _ => JsNum.fin 0, ymean := fun _ => JsNum.fin 0,
    mass := fun _ => JsNum.fin (1/10), size := fun _ => JsNum.fin (3/10),
    edgeNodeIndex := [0, 1], edgePosition := jsNewArray none,
    numberOfEdgesField := none }

/-- C7 (code behaviour at the failing input): for a coincident pair the
pairwise recomputation divides by the zero distance with no guard — `NaN` is
written into the direction buffer (slot `0·N·dof + 1·dof + 0 = 3`) and, through
the force accumulation and the shared centroid, reaches every position
component of the step. -/
theorem c7_unguarded_zero_distance :
    s7.position 0 0 = s7.position 1 0 ∧
    s7.position 0 1 = s7.position 1 1 ∧
    s7.position 0 2 = s7.position 1 2 ∧
    (xtod jsM s7).distanceBuf (0 * 2 + 1) = JsNum.fin 0 ∧
    (xtod jsM s7).directionBuf (0 * 2 * 3 + 1 * 3 + 0) = JsNum.nan ∧
    (step jsM s7).position 0 0 = JsNum.nan ∧
    (step jsM s7).position 1 2 = JsNum.nan := by decide

/-- driver-tagged and of positive degree -/
def driverPosDeg (kv : String × GraphNode) : Bool :=
  decide (kv.2.attrType = some "driver") && decide (1 ≤ kv.2.degree)

/-- first maximum by degree over a list of entries: strict improvement only,
so the first-seen entry of maximal degree wins -/
def firstArgmaxDegree (l : List (String × GraphNode)) :
    Option (String × Nat) :=
  l.foldl
    (fun acc kv =>
      match acc with
      | none => some (kv.1, kv.2.degree)
      | some (i, d) =>
        if d < kv.2.degree then some (kv.1, kv.2.degree) else some (i, d))
    none

/-- Modelled from the amended claim's words: among the driver-tagged nodes of
degree at least 1, the first-seen one of maximal degree; `none` when no
driver-tagged node has positive degree. -/
def specFirstMaxDriver (nodes : List (String × GraphNode)) : Option String :=
  (firstArgmaxDegree (nodes.filter driverPosDeg)).map Prod.fst

theorem seedScan_rel (l : List (String × GraphNode)) :
    ∀ (st : Nat × Option String) (acc : Option (String × Nat)),
      (∀ kv ∈ l, kv.2.degree = kv.2.adj.length) →
      ((st.2 = none ∧ st.1 = 0 ∧ acc = none) ∨
        (∃ i d, st.2 = some i ∧ acc = some (i, d) ∧ st.1 = d ∧ 1 ≤ d)) →
      (l.foldl
        (fun (st : Nat × Option String) kv =>
          if st.1 < kv.2.degree ∧ kv.2.attrType = some "driver"
          then (kv.2.adj.length, some kv.1) else st) st).2 =
      ((l.filter driverPosDeg).foldl
        (fun acc kv =>
          match acc with
          | none => some (kv.1, kv.2.degree)
          | some (i, d) =>
            if d < kv.2.degree then some (kv.1, kv.2.degree)
            else some (i, d)) acc).map Prod.fst := by
  induction l with
  | nil =>
    intro st acc _ hrel
    rcases hrel with ⟨h1, _, h3⟩ | ⟨i, d, h1, h2, _, _⟩
    · simp [h1, h3]
    · simp [h1, h2]
  | cons kv rest ih =>
    intro st acc hw hrel
    have hwkv : kv.2.degree = kv.2.adj.length :=
      hw kv (List.mem_cons_self _ _)
    have hwrest : ∀ x ∈ rest, x.2.degree = x.2.adj.length :=
      fun x hx => hw x (List.mem_cons_of_mem _ hx)
    rw [List.foldl_cons]
    by_cases hdrv : kv.2.attrType = some "driver"
    · by_cases hdeg : st.1 < kv.2.degree
      · rw [if_pos ⟨hdeg, hdrv⟩]
        have hdeg1 : 1 ≤ kv.2.degree := by omega
        have hfil : driverPosDeg kv = true := by
          unfold driverPosDeg
          simp [hdrv, hdeg1]
        rw [List.filter_cons_of_pos hfil, List.foldl_cons]
        rcases hrel with ⟨h1, h2, h3⟩ | ⟨i, d, h1, h2, h3, h4⟩
        · rw [h3]
          exact ih _ _ hwrest
            (Or.inr ⟨kv.1, kv.2.degree, rfl, rfl, hwkv.symm, hdeg1⟩)
        · rw [h2]
          have hlt : d < kv.2.degree := h3 ▸ hdeg
          show _ = (Option.map Prod.fst (List.foldl _
            (if d < kv.2.degree then some (kv.1, kv.2.degree)
             else some (i, d)) _))
          rw [if_pos hlt]
          exact ih _ _ hwrest
            (Or.inr ⟨kv.1, kv.2.degree, rfl, rfl, hwkv.symm, hdeg1⟩)
      · rw [if_neg (fun h => hdeg h.1)]
        by_cases hdeg1 : 1 ≤ kv.2.degree
        · rcases hrel with ⟨h1, h2, h3⟩ | ⟨i, d, h1, h2, h3, h4⟩
          · rw [h2] at hdeg
            omega
          · have hfil : driverPosDeg kv = true := by
              unfold driverPosDeg
              simp [hdrv, hdeg1]
            rw [List.filter_cons_of_pos hfil, List.foldl_cons, h2]
            have hnd : ¬ d < kv.2.degree := by omega
            show _ = (Option.map Prod.fst (List.foldl _
              (if d < kv.2.degree then some (kv.1, kv.2.degree)
               else some (i, d)) _))
            rw [if_neg hnd]
            exact ih _ _ hwrest (Or.inr ⟨i, d, h1, rfl, h3, h4⟩)
        · have hfil : ¬ driverPosDeg kv = true := by
            unfold driverPosDeg
            simp [hdeg1]
          rw [List.filter_cons_of_neg hfil]
          exact ih _ _ hwrest hrel
    · rw [if_neg (fun h => hdrv h.2)]
      have hfil : ¬ driverPosDeg kv = true := by
        unfold driverPosDeg
        simp [hdrv]
      rw [List.filter_cons_of_neg hfil]
      exact ih _ _ hwrest hrel

/-- C3 (amended): when every node's `degree` agrees with its adjacency-set
size (as holds for nodes built through `addAdjacentNode` without duplicate
insertions), the implicit seed is the first-seen driver-tagged node of
maximal degree among those of degree at least 1 — a zero-degree driver is
never eligible — and when no seed is selected the call fails with an
undefined-node TypeError (no SeedNotFoundError exists in the module). -/
theorem c3_amended (nodes : List (String × GraphNode))
    (hw : ∀ kv ∈ nodes, kv.2.degree = kv.2.adj.length)
    (g : Graph) (k : Nat) :
    selectDefaultSeed nodes = specFirstMaxDriver nodes ∧
    (selectDefaultSeed g.nodes = none →
      generateSubGraph g none k = Except.error
        (JsError.typeError "cannot read or set distance of undefined")) := by
  constructor
  · unfold selectDefaultSeed specFirstMaxDriver firstArgmaxDegree
    exact seedScan_rel nodes (0, none) none hw (Or.inl ⟨rfl, rfl, rfl⟩)
  · intro h
    unfold generateSubGraph Graph.resetDistanceRun
    dsimp only
    rw [h]

/-- a graph whose only node is a zero-degree driver -/
def g3 : Graph := Graph.addNode Graph.make (GraphNode.make "D" (some "driver"))

/-- C3 counterexample: `g3` holds a driver-tagged node, so by the claim the
implicit seed is its maximal-degree driver (the node D itself) and the call
proceeds; the code selects no seed (`0 > 0` never holds for the zero-degree
driver) and the call fails — and its failure is a plain TypeError on an
undefined node, there being no SeedNotFoundError anywhere in the module. -/
theorem c3_counterexample :
    alookup g3.nodes "D" = some (GraphNode.make "D" (some "driver")) ∧
    (GraphNode.make "D" (some "driver")).attrType = some "driver" ∧
    selectDefaultSeed g3.nodes = none ∧
    generateSubGraph g3 none 3 = Except.error
      (JsError.typeError "cannot read or set distance of undefined") := by
  refine ⟨by decide, by decide, by decide, ?_⟩
  have h : selectDefaultSeed g3.nodes = none := by decide
  unfold generateSubGraph Graph.resetDistanceRun
  dsimp only
  rw [h]

theorem c3_amended_witness :
    (selectDefaultSeed g1.nodes = specFirstMaxDriver g1.nodes ∧
      (selectDefaultSeed g3.nodes = none →
        generateSubGraph g3 none 3 = Except.error
          (JsError.typeError "cannot read or set distance of undefined"))) :=
  c3_amended g1.nodes (by decide) g3 3
